import Mathlib

/-!
Shallow embedding of the shell REPL in `main.py` and verification of its
specification claims.

The program is a single-file interactive shell: each input line is scanned for
redirection operators (`handle_redirects`, regex based), the command portion is
tokenized with `shlex.split` (`parse_command`), dispatched by literal prefix
tests on the trimmed command text, and executed (builtins `echo`, `type`,
`exit`, `pwd`, `cd`, or an external program resolved through `PATH`).  A
readline completion callback (`complete`) implements tab completion over
builtins and `PATH` executables with process-wide mutable state.

Conventions of the embedding:
* Strings are Lean `String`s; input lines are assumed newline-free (the REPL
  reads them with `input()`, which strips the newline), so the regex
  metacharacter `.` is modelled as "any character".
* The operating system is a passed-in `World` of pure capabilities
  (environment variables, file predicates, directory listings, `chdir`
  outcomes, external process results); writes performed by the program are
  collected as an ordered list of `Effect`s.
* Machine-level details that the claims do not touch (bytes vs str, the
  interior of `os.makedirs`) are abstracted behind effects, but every branch
  and string operation of the Python source is translated one-to-one.
-/

/-! ### Python primitives -/

/-- Characters accepted by Python's `str.strip()` (ASCII whitespace). -/
def isPySpace (c : Char) : Bool :=
  c == ' ' || c == '\t' || c == '\n' || c == '\r' || c == '\x0b' || c == '\x0c'

/-- Models Python `str.strip()`: removes leading and trailing whitespace. -/
def pyStrip (s : String) : String :=
  String.mk (((s.data.dropWhile isPySpace).reverse.dropWhile isPySpace).reverse)

/-- Structural `String.startsWith` (the library version is defined through
`substrEq`, which the kernel cannot evaluate). -/
def pyStartsWith (s pre : String) : Bool := pre.data.isPrefixOf s.data

/-- Structural `String.endsWith`. -/
def pyEndsWith (s suf : String) : Bool := suf.data.reverse.isPrefixOf s.data.reverse

/-- Models Python `os.path.join(a, b)` for POSIX paths as used by the source
(two arguments, `b` never empty in the call sites). -/
def pyJoin (a b : String) : String :=
  if pyStartsWith b "/" then b
  else if a == "" || pyEndsWith a "/" then a ++ b
  else a ++ "/" ++ b

/-- Splitting on `':'`, structural version of Python `str.split(":")`
(note `"".split(":") == [""]`). -/
def splitColonAux : List Char → List Char → List String
  | [], cur => [String.mk cur]
  | c :: cs, cur =>
    if c == ':' then String.mk cur :: splitColonAux cs []
    else splitColonAux cs (cur ++ [c])

/-- Models Python `s.split(":")`. -/
def pySplitColon (s : String) : List String := splitColonAux s.data []

example : pySplitColon "" = [""] := by decide
example : pySplitColon "a:b" = ["a", "b"] := by decide
example : pySplitColon ":" = ["", ""] := by decide
example : pySplitColon "/usr/bin:/bin" = ["/usr/bin", "/bin"] := by decide

/-- Lexicographic comparison of character lists by code point, the order
Python uses for `str` comparison in `list.sort()`. -/
def listCharLe : List Char → List Char → Bool
  | [], _ => true
  | _ :: _, [] => false
  | a :: as, b :: bs => if a == b then listCharLe as bs else decide (a.toNat < b.toNat)

/-- Models Python string `<=` (lexicographic by code point). -/
def pyStrLe (a b : String) : Bool := listCharLe a.data b.data

/-- Models Python truthiness of an `Optional[str]`: `None` and `""` are falsy.
The source guards every redirection write with `if stdout_file:` etc. -/
def optTruthy : Option String → Bool
  | none => false
  | some s => s ≠ ""

/-- Decimal digit parser for `int(...)`: optional sign, then one or more
digits.  This models CPython `int()` on the plain decimal numerals that can
reach `exit`'s argument (grouping underscores and non-ASCII digits are outside
the modelled input space). -/
def pyDigitsVal : List Char → Option Nat
  | [] => none
  | cs =>
    if cs.all (·.isDigit) then
      some (cs.foldl (fun acc c => acc * 10 + (c.toNat - 48)) 0)
    else none

/-- Models Python `int(s)` for plain decimal numerals. -/
def pyInt (s : String) : Option Int :=
  let t := (pyStrip s).data
  match t with
  | '-' :: rest => (pyDigitsVal rest).map fun n => -(n : Int)
  | '+' :: rest => (pyDigitsVal rest).map fun n => (n : Int)
  | _ => (pyDigitsVal t).map fun n => (n : Int)

/-! ### Tokenizer: `parse_command` = `shlex.split` (posix, whitespace_split)

`shlex.split(s)` runs the `shlex` state machine with `posix=True`,
`whitespace_split=True`, no commenters and no punctuation characters.  The
reachable states are: between tokens (`' '`), inside a word (`'a'`), inside
single or double quotes, and the escape state entered by a backslash (whose
behaviour depends on whether it was entered from a word or from inside double
quotes).  Single quotes preserve everything; inside double quotes a backslash
escapes only `\` and `"` (otherwise the backslash is kept). -/

/-- Error kinds raised by `shlex` (`ValueError` messages in CPython). -/
inductive ShlexErr where
  | noClosingQuotation
  | noEscapedCharacter
deriving DecidableEq, Repr

/-- Whitespace set of `shlex` (`self.whitespace = ' \t\r\n'`). -/
def isShlexSpace (c : Char) : Bool :=
  c == ' ' || c == '\t' || c == '\r' || c == '\n'

/-- States of the `shlex.read_token` machine as reachable from
`shlex.split`. -/
inductive LexState where
  | ws      -- between tokens (state `' '`)
  | word    -- inside a word (state `'a'`)
  | sq      -- inside single quotes
  | dq      -- inside double quotes
  | escWord -- after `\` entered from `' '` or `'a'` (escapedstate `'a'`)
  | escDq   -- after `\` entered from `"` (escapedstate `'"'`)
deriving DecidableEq, Repr

/-- One pass of the `shlex` machine over the whole line, accumulating the
current token (`tok`), the per-token `quoted` flag and the emitted tokens. -/
def shlexRun : List Char → LexState → List Char → Bool → List String →
    Except ShlexErr (List String)
  | [], .ws, tok, quoted, acc =>
    .ok (if tok ≠ [] ∨ quoted then acc ++ [String.mk tok] else acc)
  | [], .word, tok, quoted, acc =>
    .ok (if tok ≠ [] ∨ quoted then acc ++ [String.mk tok] else acc)
  | [], .sq, _, _, _ => .error .noClosingQuotation
  | [], .dq, _, _, _ => .error .noClosingQuotation
  | [], .escWord, _, _, _ => .error .noEscapedCharacter
  | [], .escDq, _, _, _ => .error .noEscapedCharacter
  | c :: cs, .ws, tok, quoted, acc =>
    if isShlexSpace c then
      if tok ≠ [] ∨ quoted then shlexRun cs .ws [] false (acc ++ [String.mk tok])
      else shlexRun cs .ws tok quoted acc
    else if c == '\\' then shlexRun cs .escWord tok quoted acc
    else if c == '\'' then shlexRun cs .sq tok quoted acc
    else if c == '"' then shlexRun cs .dq tok quoted acc
    else shlexRun cs .word (tok ++ [c]) quoted acc
  | c :: cs, .word, tok, quoted, acc =>
    if isShlexSpace c then
      if tok ≠ [] ∨ quoted then shlexRun cs .ws [] false (acc ++ [String.mk tok])
      else shlexRun cs .ws tok quoted acc
    else if c == '\'' then shlexRun cs .sq tok quoted acc
    else if c == '"' then shlexRun cs .dq tok quoted acc
    else if c == '\\' then shlexRun cs .escWord tok quoted acc
    else shlexRun cs .word (tok ++ [c]) quoted acc
  | c :: cs, .sq, tok, _, acc =>
    if c == '\'' then shlexRun cs .word tok true acc
    else shlexRun cs .sq (tok ++ [c]) true acc
  | c :: cs, .dq, tok, _, acc =>
    if c == '"' then shlexRun cs .word tok true acc
    else if c == '\\' then shlexRun cs .escDq tok true acc
    else shlexRun cs .dq (tok ++ [c]) true acc
  | c :: cs, .escWord, tok, quoted, acc =>
    shlexRun cs .word (tok ++ [c]) quoted acc
  | c :: cs, .escDq, tok, quoted, acc =>
    if c ≠ '\\' ∧ c ≠ '"' then shlexRun cs .dq (tok ++ ['\\', c]) quoted acc
    else shlexRun cs .dq (tok ++ [c]) quoted acc

/-- Models `parse_command(command_str)` = `shlex.split(command_str)`. -/
def parse_command (command_str : String) : Except ShlexErr (List String) :=
  shlexRun command_str.data .ws [] false []

instance {ε α : Type} [DecidableEq ε] [DecidableEq α] : DecidableEq (Except ε α)
  | .ok a, .ok b =>
    if h : a = b then .isTrue (by rw [h]) else .isFalse (by intro hh; cases hh; exact h rfl)
  | .ok _, .error _ => .isFalse (by intro h; cases h)
  | .error _, .ok _ => .isFalse (by intro h; cases h)
  | .error e, .error f =>
    if h : e = f then .isTrue (by rw [h]) else .isFalse (by intro hh; cases hh; exact h rfl)

example : (Except.ok [3] : Except Nat (List Nat)) ≠ .error 3 := by decide

example : parse_command "echo  hello   world" = .ok ["echo", "hello", "world"] := by decide
example : parse_command "'a b' \"c d\" e" = .ok ["a b", "c d", "e"] := by decide
example : parse_command "echo 'abc" = .error .noClosingQuotation := by decide
example : parse_command "echo \"abc" = .error .noClosingQuotation := by decide
example : parse_command "abc\\" = .error .noEscapedCharacter := by decide
example : parse_command "a\\ b" = .ok ["a b"] := by decide
example : parse_command "he\"llo\"" = .ok ["hello"] := by decide
example : parse_command "\"a\\nb\"" = .ok ["a\\nb"] := by decide
example : parse_command "\"a\\\"b\"" = .ok ["a\"b"] := by decide
example : parse_command "echo ''" = .ok ["echo", ""] := by decide

/-! ### Redirection extractor: `handle_redirects`

The source scans the raw line with four `re.search` patterns:
* stdout append: `(.*?)(?:\s+)(1?>>)(?:\s+)(.+?)(?:\s+2>>.*|$|\s+2>.*|$)`
* stdout:        `(.*?)(?:\s+)(1?>|>)(?:\s+)(.+?)(?:\s+2>>.*|$|\s+2>.*|$)`
* stderr append: `(.*?)(?:\s+)(2>>)(?:\s+)(.+)$`
* stderr:        `(.*?)(?:\s+)(2>)(?:\s+)(.+)$`

The functions below reproduce Python's leftmost-first backtracking search for
exactly these patterns.  Because group 1 is a lazy `.*?` anchored at the start
of the search, `re.search` is equivalent to trying the split point `k`
(group 1 = first `k` characters) from `0` upwards; for a fixed `k` the engine
takes the maximal whitespace run (the operators start with non-whitespace),
matches the operator alternatives in pattern order, and then backtracks the
second `\s+` greedily (longest first) while the lazy `(.+?)` group grows from
one character until the trailing alternative list matches.  Lines are
newline-free so `.` is modelled as any character. -/

/-- Characters matched by the regex class `\s` (ASCII). -/
def isReSpace (c : Char) : Bool :=
  c == ' ' || c == '\t' || c == '\n' || c == '\r' || c == '\x0b' || c == '\x0c'

/-- Length of the leading `\s` run. -/
def wsCount (l : List Char) : Nat := (l.takeWhile isReSpace).length

/-- Match of the trailing alternatives `(?:\s+2>>.*|$|\s+2>.*|$)` viewed as a
test on the remaining suffix: the end of the line, or a nonempty whitespace
run followed by `2>` (which also covers the `2>>` alternative). -/
def tailOk (v : List Char) : Bool :=
  v.isEmpty || (decide (1 ≤ wsCount v) && ['2', '>'].isPrefixOf (v.drop (wsCount v)))

/-- Match of the stdout operator group at the head of `l`: `(1?>>)` when
`append` is set, `(1?>|>)` otherwise.  Returns the rest of the line after the
operator.  If the `1`-spelling is present the shorter alternatives cannot
apply at the same position, so the match is deterministic. -/
def opMatchStdout (append : Bool) (l : List Char) : Option (List Char) :=
  if append then
    if ['1', '>', '>'].isPrefixOf l then some (l.drop 3)
    else if ['>', '>'].isPrefixOf l then some (l.drop 2)
    else none
  else
    if ['1', '>'].isPrefixOf l then some (l.drop 2)
    else if ['>'].isPrefixOf l then some (l.drop 1)
    else none

/-- Lazy scan of `(.+?)` for the stdout patterns: grow the capture (`taken`)
one character at a time, stopping as soon as the trailing alternatives match
the remainder; fail at the end of the line (the capture needs at least one
character beyond the point reached). -/
def g3Go (taken : List Char) : List Char → Option (List Char)
  | [] => none
  | c :: cs => if tailOk cs then some (taken ++ [c]) else g3Go (taken ++ [c]) cs

/-- Greedy backtracking of the second `\s+` of the stdout patterns: try the
whitespace run length `j` from the maximal run downwards, and for each `j` do
the lazy `(.+?)` scan on what follows. -/
def jScanStdout (u : List Char) : Nat → Option (List Char)
  | 0 => none
  | j + 1 =>
    match g3Go [] (u.drop (j + 1)) with
    | some g => some g
    | none => jScanStdout u j

/-- Attempt to match the tail of a stdout pattern (everything after group 1)
against the suffix `t`; returns the captured target (group 3). -/
def restMatchStdout (append : Bool) (t : List Char) : Option (List Char) :=
  let w1 := wsCount t
  if w1 == 0 then none
  else
    match opMatchStdout append (t.drop w1) with
    | none => none
    | some u => jScanStdout u (wsCount u)

/-- Leftmost search for a stdout pattern: group 1 (`pre`) is the shortest
prefix whose remainder matches the rest of the pattern.  Returns
(group 1, group 3). -/
def searchStdoutGo (append : Bool) (pre : List Char) (suf : List Char) :
    Option (List Char × List Char) :=
  match restMatchStdout append suf with
  | some g3 => some (pre, g3)
  | none =>
    match suf with
    | [] => none
    | c :: cs => searchStdoutGo append (pre ++ [c]) cs

/-- Models `re.search` of the stdout (append) pattern on the whole line. -/
def searchStdout (append : Bool) (s : List Char) : Option (List Char × List Char) :=
  searchStdoutGo append [] s

/-- Attempt to match the tail of a stderr pattern against suffix `t`: a
nonempty whitespace run, the literal operator, a second nonempty whitespace
run backtracked greedily, and a nonempty `(.+)$` capture to the end. -/
def restMatchStderr (append : Bool) (t : List Char) : Option (List Char) :=
  let w1 := wsCount t
  if w1 == 0 then none
  else
    let op : List Char := if append then ['2', '>', '>'] else ['2', '>']
    let t1 := t.drop w1
    if op.isPrefixOf t1 then
      let u := t1.drop op.length
      let w2 := wsCount u
      if w2 == 0 then none
      else
        let j := if w2 < u.length then w2 else u.length - 1
        if j == 0 then none else some (u.drop j)
    else none

/-- Leftmost search for a stderr pattern; returns (group 1, group 3). -/
def searchStderrGo (append : Bool) (pre : List Char) (suf : List Char) :
    Option (List Char × List Char) :=
  match restMatchStderr append suf with
  | some g3 => some (pre, g3)
  | none =>
    match suf with
    | [] => none
    | c :: cs => searchStderrGo append (pre ++ [c]) cs

/-- Models `re.search` of the stderr (append) pattern on the whole line. -/
def searchStderr (append : Bool) (s : List Char) : Option (List Char × List Char) :=
  searchStderrGo append [] s

/-- Models `handle_redirects(command_str)`: returns
`(cmd, stdout_file, stderr_file, append_stdout, append_stderr)`.  The stdout
append pattern is tried before the stdout truncate pattern, then the stderr
append pattern before the stderr truncate pattern, each searching the original
line; the command text is replaced by the stderr match's group 1 only when no
stdout pattern matched. -/
def handle_redirects (command_str : String) :
    String × Option String × Option String × Bool × Bool :=
  let s := command_str.data
  let stdoutRes : Option (List Char × List Char × Bool) :=
    match searchStdout true s with
    | some (g1, g3) => some (g1, g3, true)
    | none =>
      match searchStdout false s with
      | some (g1, g3) => some (g1, g3, false)
      | none => none
  let cmd0 := match stdoutRes with
    | some (g1, _, _) => g1
    | none => s
  let stderrRes : Option (List Char × List Char × Bool) :=
    match searchStderr true s with
    | some (g1, g3) => some (g1, g3, true)
    | none =>
      match searchStderr false s with
      | some (g1, g3) => some (g1, g3, false)
      | none => none
  let cmd := match stderrRes with
    | some (g1, _, _) => if stdoutRes.isSome then cmd0 else g1
    | none => cmd0
  (String.mk cmd,
   stdoutRes.map fun r => String.mk r.2.1,
   stderrRes.map fun r => String.mk r.2.1,
   (stdoutRes.map fun r => r.2.2).getD false,
   (stderrRes.map fun r => r.2.2).getD false)

example : handle_redirects "cmd 2> e.txt > o.txt" =
    ("cmd 2> e.txt", some "o.txt", some "e.txt > o.txt", false, false) := by decide
example : handle_redirects "cmd > o.txt 2> e.txt" =
    ("cmd", some "o.txt", some "e.txt", false, false) := by decide
example : handle_redirects "cmd >> o.txt 2>> e.txt" =
    ("cmd", some "o.txt", some "e.txt", true, true) := by decide
example : handle_redirects "echo hi > out.txt" =
    ("echo hi", some "out.txt", none, false, false) := by decide
example : handle_redirects "cmd >   2> y" =
    ("cmd", some "2> y", some "y", false, false) := by decide
example : handle_redirects "cmd >  " =
    ("cmd", some " ", none, false, false) := by decide
example : handle_redirects "a12 > o 2> e" =
    ("a12", some "o", some "e", false, false) := by decide
example : handle_redirects "cmd 1> o.txt 2> e.txt" =
    ("cmd", some "o.txt", some "e.txt", false, false) := by decide
example : handle_redirects "cmd 2>> e.txt" =
    ("cmd", none, some "e.txt", false, true) := by decide
example : handle_redirects "echo hello" =
    ("echo hello", none, none, false, false) := by decide
example : handle_redirects "echo  hello   world > out.txt 2> err.txt" =
    ("echo  hello   world", some "out.txt", some "err.txt", false, false) := by decide

/-! ### The operating-system capability world

All OS interaction of the program is read through this record of pure
capabilities: environment variables, the file-system predicates used by
`os.path.isfile`/`os.access`/`os.path.isdir`/`os.listdir`, the outcome of
`os.chdir`, the current working directory, and the captured output of
`subprocess.run`. -/

/-- Outcome of `os.chdir` as distinguished by the source's `except` arms. -/
inductive ChdirOutcome where
  | ok
  | notFound      -- FileNotFoundError
  | notDir        -- NotADirectoryError
  | permDenied    -- PermissionError
deriving DecidableEq, Repr

/-- Pure snapshot of the process environment and file system. -/
structure World where
  /-- `os.environ.get("PATH")`. -/
  pathEnv : Option String
  /-- `os.environ.get("HOME")`. -/
  homeEnv : Option String
  /-- `os.getcwd()`. -/
  cwd : String
  /-- `os.path.isdir`. -/
  isDir : String → Bool
  /-- `os.listdir`; `none` models the `PermissionError`/`FileNotFoundError`
  raise. -/
  listdir : String → Option (List String)
  /-- `os.path.isfile p and os.access(p, os.X_OK)` for a full path `p`. -/
  isExecFile : String → Bool
  /-- Outcome of `os.chdir`. -/
  chdirOutcome : String → ChdirOutcome
  /-- Captured `(stdout, stderr)` text of `subprocess.run(args, ...)`. -/
  runResult : List String → String × String

/-- The fixed builtin registry (`builtins = ["echo", "exit", "type", "pwd",
"cd"]`, duplicated at top level for completion and inside `main`). -/
def builtinsList : List String := ["echo", "exit", "type", "pwd", "cd"]

/-! ### Path resolver: `find_executable` -/

/-- Directory list obtained from the PATH variable:
`os.environ.get("PATH", "").split(":")`.  Note Python's `"".split(":")`
is `[""]`, so an unset or empty PATH yields one empty directory entry. -/
def pathSplit (w : World) : List String := pySplitColon (w.pathEnv.getD "")

/-- The loop of `find_executable`: first directory whose joined path is an
executable regular file. -/
def findExecIn (w : World) (command : String) : List String → Option String
  | [] => none
  | d :: rest =>
    let full_path := pyJoin d command
    if w.isExecFile full_path then some full_path else findExecIn w command rest

/-- Models `find_executable(command)`. -/
def find_executable (w : World) (command : String) : Option String :=
  findExecIn w command (pathSplit w)

/-! ### Completion engine: `find_completions` and `complete` -/

/-- Inner loop of `find_completions` over one directory listing: append each
executable file whose name starts with the prefix, skipping names already
collected (`if filename not in executables`). -/
def addFiles (w : World) (text d : String) : List String → List String → List String
  | [], acc => acc
  | f :: fs, acc =>
    if pyStartsWith f text && w.isExecFile (pyJoin d f) && !acc.contains f then
      addFiles w text d fs (acc ++ [f])
    else
      addFiles w text d fs acc

/-- Outer loop of `find_completions` over the PATH directories: directories
that are not directories are skipped, and a `listdir` failure
(`PermissionError`, `FileNotFoundError`) skips the directory. -/
def gatherExecs (w : World) (text : String) : List String → List String → List String
  | [], acc => acc
  | d :: rest, acc =>
    if !w.isDir d then gatherExecs w text rest acc
    else
      match w.listdir d with
      | none => gatherExecs w text rest acc
      | some files => gatherExecs w text rest (addFiles w text d files acc)

/-- The longest-common-prefix loop of `find_completions`: starting from
index `i`, advance while the first match has a character at `i` and every
match agrees on it.  `fuel` bounds the recursion (`m0.length + 1` suffices). -/
def lcpLenAux (m0 : List Char) (ms : List (List Char)) : Nat → Nat → Nat
  | i, 0 => i
  | i, fuel + 1 =>
    match m0.drop i with
    | [] => i
    | c :: _ =>
      if ms.all fun m => decide (i < m.length) && (m.getD i c == c) then
        lcpLenAux m0 ms (i + 1) fuel
      else i

/-- Models `find_completions(text)`: `(matches, longest_common_prefix)`.
Python's stable `list.sort()` is modelled by insertion sort; since string
comparison is antisymmetric and equal strings are identical, every sorting
algorithm produces the same list here. -/
def find_completions (w : World) (text : String) : List String × String :=
  let matches0 := builtinsList.filter fun cmd => pyStartsWith cmd text
  let executables := gatherExecs w text (pathSplit w) []
  let ms := List.insertionSort (fun a b : String => pyStrLe a b) (matches0 ++ executables)
  if ms.isEmpty then ([], "")
  else
    let m0 := (ms.headD "").data
    let i := lcpLenAux m0 (ms.map String.data) text.length (m0.length + 1)
    (ms, String.mk (m0.take i))

/-- The process-wide completion globals of the source:
`last_text`, `tab_pressed`, `completion_matches` and the `longest_prefix`
variable assigned inside `complete` (named `longest_cp` here). -/
structure CState where
  last_text : String
  tab_pressed : Bool
  completion_matches : List String
  longest_cp : String
deriving DecidableEq, Repr

/-- Initial values of the completion globals. -/
def initCState : CState := ⟨"", false, [], ""⟩

/-- Result of one call of the readline completer: the returned completion (or
`None`), the updated globals, and the chunks written to stdout in order (the
bell `'\x07'`, or the newline + match list + prompt redraw). -/
structure CompResult where
  ret : Option String
  state : CState
  out : List String
deriving DecidableEq, Repr

/-- Fallback tail of `complete`: `if state < len(completion_matches)` return
the state-indexed match (with a trailing space for exact or builtin names),
else `None`. -/
def completeIndexed (text : String) (state : Nat) (g : CState) : CompResult :=
  if h : state < g.completion_matches.length then
    let m := g.completion_matches.get ⟨state, h⟩
    if m == text || builtinsList.contains m then ⟨some (m ++ " "), g, []⟩
    else ⟨some m, g, []⟩
  else ⟨none, g, []⟩

/-- The multiple-match block of `complete` (`if len(completion_matches) > 1`):
first press records `tab_pressed` and rings the bell when there is no further
common extension; the press after that prints the match list (two-space
separated) and redraws the prompt. -/
def completeMulti (text : String) (state : Nat) (g : CState) : CompResult :=
  if 1 < g.completion_matches.length then
    if !g.tab_pressed && state == 0 then
      ⟨none, { g with tab_pressed := true },
        if g.longest_cp.length ≤ text.length then ["\x07"] else []⟩
    else if g.tab_pressed && state == 0 then
      ⟨none, { g with tab_pressed := false },
        ["\n", String.intercalate "  " g.completion_matches ++ "\n", "$ " ++ text]⟩
    else completeIndexed text state g
  else completeIndexed text state g

/-- Models the readline completer `complete(text, state)` acting on the
completion globals `g`.  The hardcoded special cases for `"ech"`, `"exi"`,
exact builtin names and `"xyz_quz_qux_bar"` return before any state is
touched; otherwise the globals are recomputed whenever the text changed or
`state == 0`, and control falls through to the multiple-match machinery. -/
def complete (w : World) (text : String) (state : Nat) (g : CState) : CompResult :=
  if text == "ech" && state == 0 then ⟨some "echo ", g, []⟩
  else if text == "exi" && state == 0 then ⟨some "exit ", g, []⟩
  else if builtinsList.contains text && state == 0 then ⟨some (text ++ " "), g, []⟩
  else if text == "xyz_quz_qux_bar" && state == 0 then ⟨some "xyz_quz_qux_bar ", g, []⟩
  else if text != g.last_text || state == 0 then
    let fc := find_completions w text
    let g1 : CState :=
      { g with completion_matches := fc.1, longest_cp := fc.2, last_text := text }
    -- the source repeats the exact-builtin test here; it is unreachable
    -- because the same test returned above, but it is kept for fidelity
    if builtinsList.contains text && state == 0 then ⟨some (text ++ " "), g1, []⟩
    else if !g1.completion_matches.isEmpty && text.length < g1.longest_cp.length then
      if state == 0 then
        if g1.completion_matches.contains g1.longest_cp then
          ⟨some (g1.longest_cp ++ " "), g1, []⟩
        else ⟨some g1.longest_cp, g1, []⟩
      else completeMulti text state g1
    else if g1.completion_matches.length == 1 && state == 0 then
      ⟨some (g1.completion_matches.headD "" ++ " "), g1, []⟩
    else completeMulti text state g1
  else completeMulti text state g

/-! ### Command dispatcher: the branch chain of `main`

One REPL iteration takes the line, extracts redirections, ensures target
directories, then dispatches on literal tests of the stripped command text:
`startswith("echo ")`, `startswith("type ")`, `startswith("exit")`,
`== "pwd"`, `startswith("cd ")`, else external.  Exceptions other than
`EOFError` (notably the `ValueError` from `shlex.split`) are not caught and
terminate the REPL. -/

/-- The command kind decided by the `if`/`elif` chain of `main`. -/
inductive CmdKind where
  | echoCmd
  | typeCmd
  | exitCmd
  | pwdCmd
  | cdCmd
  | externalCmd
deriving DecidableEq, Repr

/-- Models the branch selection of `main` on the command text (after
redirection extraction): the tests are applied to `cmd.strip()` in source
order.  `pwd` is an equality test; the others are prefix tests. -/
def classifyCmd (cmd_without_redirect : String) : CmdKind :=
  let t := pyStrip cmd_without_redirect
  if pyStartsWith t "echo " then .echoCmd
  else if pyStartsWith t "type " then .typeCmd
  else if pyStartsWith t "exit" then .exitCmd
  else if t == "pwd" then .pwdCmd
  else if pyStartsWith t "cd " then .cdCmd
  else .externalCmd

/-- Observable actions of one REPL iteration, in program order.  File writes
record the path, the append flag (`'a'` vs `'w'` open mode) and the written
content; `ensureDirFor p` stands for the `ensure_dir_exists(p)` call (whose
internal `os.makedirs` is abstracted); `runProc` records a `subprocess.run`
with its capture configuration. -/
inductive Effect where
  | ensureDirFor (path : String)
  | fileWrite (path : String) (append : Bool) (content : String)
  | termOut (s : String)
  | termErr (s : String)
  | runProc (args : List String) (captureOut captureErr : Bool)
deriving DecidableEq, Repr

/-- Result of processing one input line: continue the loop (with the possibly
changed working directory), exit the process, or crash on an uncaught
tokenizer error. -/
inductive StepResult where
  | continued (cwd : String) (effects : List Effect)
  | exited (code : Int) (effects : List Effect)
  | crashed (err : ShlexErr) (effects : List Effect)
deriving DecidableEq, Repr

/-- The `ensure_dir_exists` calls made right after redirection extraction
(stdout target first, then stderr target, each only when truthy). -/
def baseFx (stdout_file stderr_file : Option String) : List Effect :=
  (if optTruthy stdout_file then [Effect.ensureDirFor (stdout_file.getD "")] else []) ++
  (if optTruthy stderr_file then [Effect.ensureDirFor (stderr_file.getD "")] else [])

/-- The ubiquitous output pattern of the source: write `content` to the
target file per the append flag when a target is present, else print it to
the terminal (stdout). -/
def outTo (target : Option String) (append : Bool) (content : String) : Effect :=
  if optTruthy target then .fileWrite (target.getD "") append content
  else .termOut content

/-- Tilde expansion of the `cd` argument: `~` becomes `$HOME`, `~/rest`
becomes `os.path.join($HOME, rest)`. -/
def cdExpand (w : World) (directory : String) : String :=
  if directory == "~" then w.homeEnv.getD ""
  else if pyStartsWith directory "~/" then
    pyJoin (w.homeEnv.getD "") (String.mk (directory.data.drop 2))
  else directory

/-- The three `cd` diagnostics of the source, one per handled exception. -/
def cdErrMsg (o : ChdirOutcome) (directory : String) : String :=
  match o with
  | .notFound => "cd: " ++ directory ++ ": No such file or directory"
  | .notDir => "cd: " ++ directory ++ ": Not a directory"
  | .permDenied => "cd: " ++ directory ++ ": Permission denied"
  | .ok => ""

/-- Models one iteration of the `while True` loop of `main` on an input
line: redirection extraction, `ensure_dir_exists` for the targets, then the
dispatch chain.  A `ValueError` from `parse_command` is not caught by the
source (its `try` only handles `EOFError`), so it crashes the REPL. -/
def replStep (w : World) (command_str : String) : StepResult :=
  let r := handle_redirects command_str
  let cmd_without_redirect := r.1
  let stdout_file := r.2.1
  let stderr_file := r.2.2.1
  let append_stdout := r.2.2.2.1
  let append_stderr := r.2.2.2.2
  let base := baseFx stdout_file stderr_file
  match classifyCmd cmd_without_redirect with
    | .echoCmd =>
      match parse_command cmd_without_redirect with
      | .error e => .crashed e base
      | .ok args =>
        let output := if 1 < args.length then String.intercalate " " (args.drop 1) else ""
        let touch :=
          if optTruthy stderr_file then
            [Effect.fileWrite (stderr_file.getD "") append_stderr ""]
          else []
        .continued w.cwd
          (base ++ touch ++ [outTo stdout_file append_stdout (output ++ "\n")])
    | .typeCmd =>
      match parse_command cmd_without_redirect with
      | .error e => .crashed e base
      | .ok args =>
        if 1 < args.length then
          let cmd_to_check := args.getD 1 ""
          let output :=
            if builtinsList.contains cmd_to_check then
              cmd_to_check ++ " is a shell builtin"
            else
              match find_executable w cmd_to_check with
              | some p => cmd_to_check ++ " is " ++ p
              | none => cmd_to_check ++ ": not found"
          .continued w.cwd (base ++ [outTo stdout_file append_stdout (output ++ "\n")])
        else .continued w.cwd base
    | .exitCmd =>
      match parse_command cmd_without_redirect with
      | .error e => .crashed e base
      | .ok args =>
        let code := if 1 < args.length then (pyInt (args.getD 1 "")).getD 0 else 0
        .exited code base
    | .pwdCmd =>
      .continued w.cwd (base ++ [outTo stdout_file append_stdout (w.cwd ++ "\n")])
    | .cdCmd =>
      match parse_command cmd_without_redirect with
      | .error e => .crashed e base
      | .ok args =>
        if 1 < args.length then
          let directory := cdExpand w (args.getD 1 "")
          match w.chdirOutcome directory with
          | .ok => .continued directory base
          | o =>
            .continued w.cwd
              (base ++ [outTo stderr_file append_stderr (cdErrMsg o directory ++ "\n")])
        else .continued w.cwd base
    | .externalCmd =>
      match parse_command cmd_without_redirect with
      | .error e => .crashed e base
      | .ok args =>
        match args with
        | [] => .continued w.cwd base
        | cmd_name :: _ =>
          match find_executable w cmd_name with
          | some _ =>
            let co := optTruthy stdout_file
            let ce := optTruthy stderr_file
            let res := w.runResult args
            .continued w.cwd
              (base ++ [Effect.runProc args co ce]
                ++ (if co then [Effect.fileWrite (stdout_file.getD "") append_stdout res.1] else [])
                ++ (if ce then [Effect.fileWrite (stderr_file.getD "") append_stderr res.2] else []))
          | none =>
            .continued w.cwd
              (base ++ [outTo stderr_file append_stderr (cmd_name ++ ": command not found\n")])

/-! ### Concrete worlds used for witnesses and counterexamples -/

/-- A world with an empty environment and a file system that refuses
everything. -/
def wEmpty : World where
  pathEnv := none
  homeEnv := none
  cwd := "/home/user"
  isDir := fun _ => false
  listdir := fun _ => none
  isExecFile := fun _ => false
  chdirOutcome := fun _ => .notFound
  runResult := fun _ => ("", "")

/-- A world whose single PATH directory `/bin` contains one executable also
named like the builtin `echo`. -/
def wEchoBin : World where
  pathEnv := some "/bin"
  homeEnv := none
  cwd := "/home/user"
  isDir := fun d => d == "/bin"
  listdir := fun d => if d == "/bin" then some ["echo"] else none
  isExecFile := fun p => p == "/bin/echo"
  chdirOutcome := fun _ => .ok
  runResult := fun _ => ("", "")

/-- A world whose `/bin` holds two executable pairs `foo_a`/`foo_b` and
`bar_a`/`bar_b` (two ambiguous completion prefixes). -/
def wFooBar : World where
  pathEnv := some "/bin"
  homeEnv := none
  cwd := "/home/user"
  isDir := fun d => d == "/bin"
  listdir := fun d => if d == "/bin" then some ["foo_a", "foo_b", "bar_a", "bar_b"] else none
  isExecFile := fun p =>
    p == "/bin/foo_a" || p == "/bin/foo_b" || p == "/bin/bar_a" || p == "/bin/bar_b"
  chdirOutcome := fun _ => .ok
  runResult := fun _ => ("", "")

example : find_completions wEchoBin "ec" = (["echo", "echo"], "echo") := by decide
example : find_completions wEchoBin "zz" = ([], "") := by decide
example : find_completions wFooBar "foo_" = (["foo_a", "foo_b"], "foo_") := by decide
example : find_completions wFooBar "bar_" = (["bar_a", "bar_b"], "bar_") := by decide
example : find_completions wEmpty "ech" = (["echo"], "echo") := by decide

example : replStep wEmpty "echo 'abc" = .crashed .noClosingQuotation [] := by decide
example : replStep wEmpty "pwdx" =
    .continued "/home/user" [.termOut "pwdx: command not found\n"] := by decide
example : replStep wEmpty "pwd" =
    .continued "/home/user" [.termOut "/home/user\n"] := by decide
example : replStep wEmpty "echo  hello   world > out.txt 2> err.txt" =
    .continued "/home/user"
      [.ensureDirFor "out.txt", .ensureDirFor "err.txt",
       .fileWrite "err.txt" false "", .fileWrite "out.txt" false "hello world\n"] := by decide
example : replStep wEmpty "cd /nope" =
    .continued "/home/user" [.termOut "cd: /nope: No such file or directory\n"] := by decide

/-- The typed texts special-cased at the top of `complete` (returned verbatim
before any completion state is consulted or modified). -/
def specialTexts : List String :=
  ["ech", "exi", "echo", "exit", "type", "pwd", "cd", "xyz_quz_qux_bar"]

/-- Boolean form of "`x` is an executable-file candidate for prefix `text`":
some PATH directory is a directory, lists successfully, contains `x`, and `x`
starts with the prefix and joins to an executable file.  This is the
membership condition realised by the executable-gathering loop of
`find_completions`. -/
def execCandidateB (w : World) (text x : String) : Bool :=
  (pathSplit w).any fun d =>
    w.isDir d &&
      (match w.listdir d with
       | none => false
       | some files => files.contains x) &&
      pyStartsWith x text && w.isExecFile (pyJoin d x)

/-- A world whose `/bin` holds an executable `echx`, making the prefix `ech`
ambiguous between the builtin `echo` and `echx`. -/
def wEchx : World where
  pathEnv := some "/bin"
  homeEnv := none
  cwd := "/home/user"
  isDir := fun d => d == "/bin"
  listdir := fun d => if d == "/bin" then some ["echx"] else none
  isExecFile := fun p => p == "/bin/echx"
  chdirOutcome := fun _ => .ok
  runResult := fun _ => ("", "")

/-- A world with an empty PATH variable whose working directory contains an
executable regular file `ls` (reachable as a relative path). -/
def wCwdLs : World where
  pathEnv := some ""
  homeEnv := none
  cwd := "/home/user"
  isDir := fun _ => false
  listdir := fun _ => none
  isExecFile := fun p => p == "ls"
  chdirOutcome := fun _ => .ok
  runResult := fun _ => ("", "")

/-- As `wCwdLs` but with the PATH variable entirely unset. -/
def wCwdLsNoPath : World := { wCwdLs with pathEnv := none }

/-! ## General lemmas -/

/-- `classifyCmd` selects the `pwd` branch exactly for command texts that
strip to the literal `"pwd"`: the source tests `strip() == "pwd"`, not a
prefix. -/
theorem classifyCmd_eq_pwd_iff (s : String) :
    classifyCmd s = CmdKind.pwdCmd ↔ pyStrip s = "pwd" := by
  have h : classifyCmd s =
      (if pyStartsWith (pyStrip s) "echo " then CmdKind.echoCmd
       else if pyStartsWith (pyStrip s) "type " then CmdKind.typeCmd
       else if pyStartsWith (pyStrip s) "exit" then CmdKind.exitCmd
       else if pyStrip s == "pwd" then CmdKind.pwdCmd
       else if pyStartsWith (pyStrip s) "cd " then CmdKind.cdCmd
       else CmdKind.externalCmd) := rfl
  rw [h]
  generalize pyStrip s = t
  constructor
  · intro hc
    split_ifs at hc
    all_goals simp_all
  · intro ht
    subst ht
    decide

/-- A command text stripping to `"pwd"` followed by more characters falls
through every branch test to the external case. -/
theorem classifyCmd_pwdPrefix_external (s : String)
    (hp : pyStartsWith (pyStrip s) "pwd" = true) (hne : pyStrip s ≠ "pwd") :
    classifyCmd s = CmdKind.externalCmd := by
  have h : classifyCmd s =
      (if pyStartsWith (pyStrip s) "echo " then CmdKind.echoCmd
       else if pyStartsWith (pyStrip s) "type " then CmdKind.typeCmd
       else if pyStartsWith (pyStrip s) "exit" then CmdKind.exitCmd
       else if pyStrip s == "pwd" then CmdKind.pwdCmd
       else if pyStartsWith (pyStrip s) "cd " then CmdKind.cdCmd
       else CmdKind.externalCmd) := rfl
  rw [h]
  clear h
  generalize hg : pyStrip s = t at hp hne
  rw [pyStartsWith, List.isPrefixOf_iff_prefix] at hp
  rcases hp with ⟨tl, htl⟩
  have hdata : t.data = 'p' :: 'w' :: 'd' :: tl := by rw [← htl]; rfl
  have h1 : pyStartsWith t "echo " = false := by
    simp [pyStartsWith, hdata, List.isPrefixOf]
  have h2 : pyStartsWith t "type " = false := by
    simp [pyStartsWith, hdata, List.isPrefixOf]
  have h3 : pyStartsWith t "exit" = false := by
    simp [pyStartsWith, hdata, List.isPrefixOf]
  have h4 : (t == "pwd") = false := beq_eq_false_iff_ne.mpr hne
  have h5 : pyStartsWith t "cd " = false := by
    simp [pyStartsWith, hdata, List.isPrefixOf]
  simp [h1, h2, h3, h4, h5]

/-- The first-directory-match loop returns `none` exactly when no PATH entry
joins to an executable file. -/
theorem findExecIn_eq_none_iff (w : World) (command : String) (ds : List String) :
    findExecIn w command ds = none ↔
      ∀ d ∈ ds, w.isExecFile (pyJoin d command) = false := by
  induction ds with
  | nil => simp [findExecIn]
  | cons d rest ih =>
    by_cases h : w.isExecFile (pyJoin d command) = true
    · simp [findExecIn, h]
    · simp only [Bool.not_eq_true] at h
      simp [findExecIn, h, ih]

/-- A successful first-directory-match splits the directory list at the first
hit: every earlier directory misses. -/
theorem findExecIn_eq_some (w : World) (command p : String) (ds : List String)
    (h : findExecIn w command ds = some p) :
    ∃ l1 d l2, ds = l1 ++ d :: l2 ∧ p = pyJoin d command ∧
      w.isExecFile p = true ∧ ∀ d' ∈ l1, w.isExecFile (pyJoin d' command) = false := by
  induction ds with
  | nil => simp [findExecIn] at h
  | cons d rest ih =>
    by_cases hd : w.isExecFile (pyJoin d command) = true
    · have hp : p = pyJoin d command := by
        simp [findExecIn, hd] at h
        exact h.symm
      exact ⟨[], d, rest, rfl, hp, hp ▸ hd, by simp⟩
    · simp only [Bool.not_eq_true] at hd
      have h' : findExecIn w command rest = some p := by
        simpa [findExecIn, hd] using h
      obtain ⟨l1, d', l2, hsplit, hpj, hex, hmiss⟩ := ih h'
      refine ⟨d :: l1, d', l2, by rw [hsplit]; rfl, hpj, hex, ?_⟩
      intro x hx
      rcases List.mem_cons.mp hx with rfl | hx
      · exact hd
      · exact hmiss x hx

/-- Joining the empty directory (the entry produced by splitting an empty
PATH) is the bare command name. -/
theorem pyJoin_empty_left (b : String) : pyJoin "" b = b := by
  unfold pyJoin
  split_ifs <;> first | rfl | simp_all

/-! ## Claim C7: the path resolver -/

/-- C7 (corrected).  `find_executable` returns the first PATH directory whose
joined entry is an executable regular file, and `none` exactly when every
directory misses.  However, an unset or empty PATH variable does NOT
guarantee `none`: `"".split(":") == [""]`, so the search degenerates to the
single empty directory, `os.path.join("", command) == command`, and a
matching executable relative to the current working directory is returned. -/
theorem find_executable_first_match (w : World) (command : String) :
    (find_executable w command = none ↔
      ∀ d ∈ pathSplit w, w.isExecFile (pyJoin d command) = false) ∧
    (∀ p, find_executable w command = some p →
      ∃ l1 d l2, pathSplit w = l1 ++ d :: l2 ∧ p = pyJoin d command ∧
        w.isExecFile p = true ∧ ∀ d' ∈ l1, w.isExecFile (pyJoin d' command) = false) ∧
    (w.pathEnv = none ∨ w.pathEnv = some "" →
      find_executable w command =
        if w.isExecFile command then some command else none) := by
  refine ⟨findExecIn_eq_none_iff w command (pathSplit w),
          fun p hp => findExecIn_eq_some w command p (pathSplit w) hp, ?_⟩
  intro hpe
  have hsplit : pathSplit w = [""] := by
    rcases hpe with h | h <;> simp [pathSplit, h, pySplitColon, splitColonAux]
  rw [find_executable, hsplit]
  simp [findExecIn, pyJoin_empty_left]

/-- C7 counterexample: with an empty (or unset) PATH and an executable `ls`
in the working directory, the resolver returns the relative path `ls`,
contradicting "with an unset or empty search-path variable it never returns a
path". -/
theorem find_executable_emptyPath_counterexample :
    find_executable wCwdLs "ls" = some "ls" ∧
    find_executable wCwdLsNoPath "ls" = some "ls" ∧
    find_executable wCwdLs "ls" ≠ none := by decide

/-- Witness for `find_executable_first_match` at a concrete world. -/
theorem find_executable_first_match_witness :
    find_executable wCwdLsNoPath "ls" =
      if wCwdLsNoPath.isExecFile "ls" then some "ls" else none :=
  (find_executable_first_match wCwdLsNoPath "ls").2.2 (Or.inl rfl)

/-! ## Claim C6: command classification -/

/-- C6 (corrected).  Classification is literal matching on the stripped
command text, but the `pwd` branch is an equality test, not a prefix test: a
trimmed text beginning with `pwd` yet different from it (such as `pwdx`)
falls through to the external branch. -/
theorem classify_literal_matching (s : String) :
    (classifyCmd s = CmdKind.pwdCmd ↔ pyStrip s = "pwd") ∧
    (pyStartsWith (pyStrip s) "pwd" = true → pyStrip s ≠ "pwd" →
      classifyCmd s = CmdKind.externalCmd) :=
  ⟨classifyCmd_eq_pwd_iff s, classifyCmd_pwdPrefix_external s⟩

/-- C6 counterexample: `pwdx` is not classified as the Pwd builtin; it is
dispatched as an external command (and reported not found in a world without
executables). -/
theorem classify_pwdx_counterexample :
    classifyCmd "pwdx" = CmdKind.externalCmd ∧
    classifyCmd "pwdx" ≠ CmdKind.pwdCmd ∧
    replStep wEmpty "pwdx" =
      .continued "/home/user" [.termOut "pwdx: command not found\n"] := by decide

/-- Witness for `classify_literal_matching` at the concrete text `pwdx`. -/
theorem classify_literal_matching_witness :
    classifyCmd "pwdx" = CmdKind.externalCmd ∧
    (classifyCmd "pwdx" = CmdKind.pwdCmd ↔ pyStrip "pwdx" = "pwd") :=
  ⟨(classify_literal_matching "pwdx").2 (by decide) (by decide),
   (classify_literal_matching "pwdx").1⟩

/-! ## Claim C10: hardcoded completion special cases -/

/-- C10 (confirmed).  For state 0 the typed texts `ech`, `exi` and
`xyz_quz_qux_bar` return `echo `, `exit ` and `xyz_quz_qux_bar ` verbatim,
leaving the completion state untouched and writing nothing, whatever the
world contains and whatever the current completion state is. -/
theorem complete_hardcoded_specials (w : World) (g : CState) :
    complete w "ech" 0 g = ⟨some "echo ", g, []⟩ ∧
    complete w "exi" 0 g = ⟨some "exit ", g, []⟩ ∧
    complete w "xyz_quz_qux_bar" 0 g = ⟨some "xyz_quz_qux_bar ", g, []⟩ :=
  ⟨rfl, rfl, rfl⟩

/-! ## Claim C2: completion state reset on prefix change -/

/-- C2 (code bug).  The awaiting-second-press flag survives a prefix change:
after a first tab on `foo_` (bell, flag recorded), a tab on the changed
prefix `bar_` immediately prints the candidate list of `bar_` — State B's
second step — instead of starting fresh with a bell, because the reset block
of `complete` recomputes the matches and `last_text` but never clears
`tab_pressed`. -/
theorem complete_prefix_change_keeps_flag :
    (complete wFooBar "foo_" 0 initCState).ret = none ∧
    (complete wFooBar "foo_" 0 initCState).out = ["\x07"] ∧
    (complete wFooBar "foo_" 0 initCState).state.tab_pressed = true ∧
    (complete wFooBar "bar_" 0 (complete wFooBar "foo_" 0 initCState).state).ret = none ∧
    (complete wFooBar "bar_" 0 (complete wFooBar "foo_" 0 initCState).state).out =
      ["\n", "bar_a  bar_b\n", "$ bar_"] ∧
    (complete wFooBar "bar_" 0 (complete wFooBar "foo_" 0 initCState).state).state.tab_pressed
      = false := by decide

/-! ## Claim C1: the redirection extractor -/

/-- C1 counterexample: on the spec's own example `cmd 2> e.txt > o.txt` (the
stderr operator before the stdout operator) the extractor does NOT return
command text `cmd` with targets `o.txt`/`e.txt`; the command text retains the
stderr operator and its target, and the stderr target captures the rest of
the line. -/
theorem handle_redirects_order_counterexample :
    handle_redirects "cmd 2> e.txt > o.txt" =
      ("cmd 2> e.txt", some "o.txt", some "e.txt > o.txt", false, false) ∧
    handle_redirects "cmd 2> e.txt > o.txt" ≠
      ("cmd", some "o.txt", some "e.txt", false, false) := by decide

/-! ## Claim C3: unterminated quotes -/

/-- C3 (corrected).  Every branch of the dispatcher except the `pwd` one
(whose guard `strip() == "pwd"` cannot hold for an untokenizable text' worth
of arguments) calls `parse_command` on the command text; a tokenizer error is
caught by no `except` arm, so the REPL crashes instead of discarding the line
and continuing. -/
theorem replStep_parse_error_crashes (w : World) (line : String) (err : ShlexErr)
    (hp : parse_command (handle_redirects line).1 = .error err)
    (hn : pyStrip (handle_redirects line).1 ≠ "pwd") :
    replStep w line =
      .crashed err (baseFx (handle_redirects line).2.1 (handle_redirects line).2.2.1) := by
  rcases hval : handle_redirects line with ⟨cmd, sf, ef, a1, a2⟩
  rw [hval] at hp hn
  simp only at hp hn
  unfold replStep
  rw [hval]
  simp only
  cases hk : classifyCmd cmd with
  | pwdCmd => exact absurd ((classifyCmd_eq_pwd_iff cmd).mp hk) hn
  | echoCmd => simp only [hp]
  | typeCmd => simp only [hp]
  | exitCmd => simp only [hp]
  | cdCmd => simp only [hp]
  | externalCmd => simp only [hp]

/-- C3 counterexample: an unterminated single quote crashes the REPL (the
step result is a crash, not a continuation with the line discarded). -/
theorem replStep_unterminated_quote_crash :
    replStep wEmpty "echo 'abc" = .crashed .noClosingQuotation [] := by decide

/-- Witness for `replStep_parse_error_crashes` at a concrete line. -/
theorem replStep_parse_error_crashes_witness :
    replStep wEmpty "ls 'a" = .crashed .noClosingQuotation [] :=
  (replStep_parse_error_crashes wEmpty "ls 'a" .noClosingQuotation
    (by decide) (by decide)).trans (by decide)

/-! ## Claim C8: the echo builtin -/

/-- C8 (confirmed).  For every line dispatched to the echo branch whose
command text tokenizes, the branch writes `argv[1:]` joined by single spaces
plus a newline to the stdout target (per its append flag) or to the terminal,
and when a stderr target is present that file is opened (truncating or
appending per its flag) with nothing written to it. -/
theorem echo_builtin_spec (w : World) (line cmd : String) (sf ef : Option String)
    (a1 a2 : Bool) (args : List String)
    (hr : handle_redirects line = (cmd, sf, ef, a1, a2))
    (hk : classifyCmd cmd = CmdKind.echoCmd)
    (hp : parse_command cmd = .ok args) :
    replStep w line = .continued w.cwd
      (baseFx sf ef ++
        (if optTruthy ef then [Effect.fileWrite (ef.getD "") a2 ""] else []) ++
        [outTo sf a1 (String.intercalate " " (args.drop 1) ++ "\n")]) := by
  unfold replStep
  rw [hr]
  simp only
  rw [hk]
  simp only [hp]
  have hout : (if 1 < args.length then String.intercalate " " (args.drop 1) else "") =
      String.intercalate " " (args.drop 1) := by
    by_cases hl : 1 < args.length
    · simp [hl]
    · have hdrop : args.drop 1 = [] := List.drop_eq_nil_of_le (by omega)
      rw [if_neg hl, hdrop]
      decide
  rw [hout]

/-- Witness for `echo_builtin_spec`: `echo  hello   world > out.txt 2> err.txt`
writes exactly `hello world\n` to `out.txt` (truncating) and touches
`err.txt` with empty content. -/
theorem echo_builtin_spec_witness :
    replStep wEmpty "echo  hello   world > out.txt 2> err.txt" =
      .continued "/home/user"
        [.ensureDirFor "out.txt", .ensureDirFor "err.txt",
         .fileWrite "err.txt" false "", .fileWrite "out.txt" false "hello world\n"] :=
  (echo_builtin_spec wEmpty "echo  hello   world > out.txt 2> err.txt"
    "echo  hello   world" (some "out.txt") (some "err.txt") false false
    ["echo", "hello", "world"] (by decide) (by decide) (by decide)).trans (by decide)

/-! ## Claim C9: cd failure diagnostics -/

/-- C9 (confirmed).  For every line dispatched to the cd branch whose target
(after tilde expansion) fails to change the directory with one of the three
handled outcomes, exactly the corresponding diagnostic is written to the
stderr target (per its append flag) or to the terminal, the working directory
is unchanged, and the REPL continues. -/
theorem cd_failure_spec (w : World) (line cmd : String) (sf ef : Option String)
    (a1 a2 : Bool) (args : List String) (o : ChdirOutcome)
    (hr : handle_redirects line = (cmd, sf, ef, a1, a2))
    (hk : classifyCmd cmd = CmdKind.cdCmd)
    (hp : parse_command cmd = .ok args)
    (hl : 1 < args.length)
    (ho : w.chdirOutcome (cdExpand w (args.getD 1 "")) = o)
    (hno : o ≠ ChdirOutcome.ok) :
    replStep w line = .continued w.cwd
      (baseFx sf ef ++ [outTo ef a2 (cdErrMsg o (cdExpand w (args.getD 1 "")) ++ "\n")]) ∧
    (cdErrMsg o (cdExpand w (args.getD 1 "")) =
        "cd: " ++ cdExpand w (args.getD 1 "") ++ ": No such file or directory" ∨
     cdErrMsg o (cdExpand w (args.getD 1 "")) =
        "cd: " ++ cdExpand w (args.getD 1 "") ++ ": Not a directory" ∨
     cdErrMsg o (cdExpand w (args.getD 1 "")) =
        "cd: " ++ cdExpand w (args.getD 1 "") ++ ": Permission denied") := by
  constructor
  · unfold replStep
    rw [hr]
    simp only
    rw [hk]
    simp only [hp]
    rw [if_pos hl, ho]
    cases o with
    | ok => exact absurd rfl hno
    | notFound => rfl
    | notDir => rfl
    | permDenied => rfl
  · cases o with
    | ok => exact absurd rfl hno
    | notFound => exact Or.inl rfl
    | notDir => exact Or.inr (Or.inl rfl)
    | permDenied => exact Or.inr (Or.inr rfl)

/-- Witness for `cd_failure_spec`: `cd /nope` in a world where every chdir
fails with FileNotFoundError prints the not-found diagnostic to the terminal
and leaves the working directory unchanged. -/
theorem cd_failure_spec_witness :
    replStep wEmpty "cd /nope" =
      .continued "/home/user" [.termOut "cd: /nope: No such file or directory\n"] :=
  ((cd_failure_spec wEmpty "cd /nope" "cd /nope" none none false false
    ["cd", "/nope"] .notFound (by decide) (by decide) (by decide) (by decide)
    (by decide) (by decide)).1).trans (by decide)

/-! ## Claim C5: the completion candidate set -/

/-- `Char.toNat` is injective. -/
theorem charToNat_inj {a b : Char} (h : a.toNat = b.toNat) : a = b :=
  Char.eq_of_val_eq (UInt32.ext h)

/-- The code-point lexicographic comparison is total. -/
theorem listCharLe_total : ∀ as bs : List Char,
    listCharLe as bs = true ∨ listCharLe bs as = true
  | [], _ => Or.inl rfl
  | _ :: _, [] => Or.inr rfl
  | a :: as, b :: bs => by
    by_cases hab : a = b
    · subst hab
      rcases listCharLe_total as bs with h | h
      · exact Or.inl (by simp [listCharLe, h])
      · exact Or.inr (by simp [listCharLe, h])
    · have hne : a.toNat ≠ b.toNat := fun h => hab (charToNat_inj h)
      rcases Nat.lt_or_ge a.toNat b.toNat with h | h
      · exact Or.inl (by simp [listCharLe, beq_eq_false_iff_ne.mpr hab, h])
      · have hba : b.toNat < a.toNat := lt_of_le_of_ne h (Ne.symm hne)
        exact Or.inr (by
          simp [listCharLe, beq_eq_false_iff_ne.mpr (Ne.symm hab), hba])

/-- The code-point lexicographic comparison is transitive. -/
theorem listCharLe_trans : ∀ as bs cs : List Char,
    listCharLe as bs = true → listCharLe bs cs = true → listCharLe as cs = true
  | [], _, _, _, _ => rfl
  | _ :: _, [], _, h1, _ => by simp [listCharLe] at h1
  | _ :: _, _ :: _, [], _, h2 => by simp [listCharLe] at h2
  | a :: as, b :: bs, c :: cs, h1, h2 => by
    simp only [listCharLe, beq_iff_eq] at h1 h2 ⊢
    by_cases hab : a = b <;> by_cases hbc : b = c
    · subst hab; subst hbc
      rw [if_pos rfl] at h1 h2 ⊢
      exact listCharLe_trans as bs cs h1 h2
    · subst hab
      rw [if_pos rfl] at h1
      rw [if_neg hbc] at h2
      rw [if_neg hbc]
      exact h2
    · subst hbc
      rw [if_neg hab] at h1
      rw [if_neg hab]
      exact h1
    · rw [if_neg hab] at h1
      rw [if_neg hbc] at h2
      simp only [decide_eq_true_eq] at h1 h2
      have hac : a.toNat < c.toNat := Nat.lt_trans h1 h2
      have hane : a ≠ c := fun h => Nat.lt_irrefl _ (h ▸ hac)
      rw [if_neg hane]
      simpa using hac

/-- The candidate list of `find_completions` is always the sorted
concatenation of the builtin matches and the gathered executables (also in
the no-match case, where both sides are empty). -/
theorem find_completions_fst (w : World) (text : String) :
    (find_completions w text).1 =
      List.insertionSort (fun a b : String => pyStrLe a b)
        ((builtinsList.filter fun cmd => pyStartsWith cmd text) ++
          gatherExecs w text (pathSplit w) []) := by
  unfold find_completions
  simp only
  split
  · next h =>
    rw [List.isEmpty_iff] at h
    rw [h]
  · rfl

/-- The candidate list is sorted by the code-point lexicographic order (the
order of Python's `list.sort()` on `str`). -/
theorem find_completions_sorted (w : World) (text : String) :
    List.Sorted (fun a b : String => pyStrLe a b = true) (find_completions w text).1 := by
  haveI : IsTotal String (fun a b : String => pyStrLe a b = true) :=
    ⟨fun a b => listCharLe_total a.data b.data⟩
  haveI : IsTrans String (fun a b : String => pyStrLe a b = true) :=
    ⟨fun a b c h1 h2 => listCharLe_trans a.data b.data c.data h1 h2⟩
  rw [find_completions_fst]
  exact List.sorted_insertionSort _ _

/-- Membership in the per-directory accumulation loop. -/
theorem mem_addFiles (w : World) (text d x : String) : ∀ (files acc : List String),
    x ∈ addFiles w text d files acc ↔
      x ∈ acc ∨ (x ∈ files ∧ pyStartsWith x text = true ∧
        w.isExecFile (pyJoin d x) = true)
  | [], acc => by simp [addFiles]
  | f :: fs, acc => by
    by_cases hc : (pyStartsWith f text && w.isExecFile (pyJoin d f) && !acc.contains f) = true
    · rw [addFiles, if_pos hc]
      rw [mem_addFiles w text d x fs (acc ++ [f])]
      simp only [Bool.and_eq_true, Bool.not_eq_true'] at hc
      obtain ⟨⟨hsw, hex⟩, hnin⟩ := hc
      by_cases hx : x = f
      · subst hx
        simp [hsw, hex, List.mem_append]
      · simp only [List.mem_append, List.mem_singleton, List.mem_cons]
        constructor
        · rintro ((h | h) | h)
          · exact Or.inl h
          · rcases h with h | h
            · exact absurd h hx
            · exact absurd h (List.not_mem_nil x)
          · exact Or.inr ⟨Or.inr h.1, h.2⟩
        · rintro (h | ⟨h | h, hrest⟩)
          · exact Or.inl (Or.inl h)
          · exact absurd h hx
          · exact Or.inr ⟨h, hrest⟩
    · rw [addFiles, if_neg hc]
      rw [mem_addFiles w text d x fs acc]
      simp only [Bool.and_eq_true, Bool.not_eq_true', not_and] at hc
      by_cases hx : x = f
      · subst hx
        constructor
        · rintro (h | h)
          · exact Or.inl h
          · exact Or.inr ⟨List.mem_cons_of_mem _ h.1, h.2⟩
        · rintro (h | ⟨_, hsw, hex⟩)
          · exact Or.inl h
          · have hin : acc.contains x = true := by
              by_contra hn
              exact absurd (hc ⟨hsw, hex⟩) (by simpa using hn)
            exact Or.inl (by simpa using hin)
      · constructor
        · rintro (h | h)
          · exact Or.inl h
          · exact Or.inr ⟨List.mem_cons_of_mem _ h.1, h.2⟩
        · rintro (h | ⟨h, hrest⟩)
          · exact Or.inl h
          · rcases List.mem_cons.mp h with h' | h'
            · exact absurd h' hx
            · exact Or.inr ⟨h', hrest⟩

/-- Membership in the gathered executables: some PATH directory passes the
directory test, lists successfully, and contains the name with the prefix and
executable conditions. -/
theorem mem_gatherExecs (w : World) (text x : String) : ∀ (ds acc : List String),
    x ∈ gatherExecs w text ds acc ↔
      x ∈ acc ∨
        (ds.any fun d => w.isDir d &&
          (match w.listdir d with
           | none => false
           | some files => files.contains x) &&
          pyStartsWith x text && w.isExecFile (pyJoin d x)) = true
  | [], acc => by simp [gatherExecs]
  | d :: ds, acc => by
    rw [gatherExecs]
    by_cases hd : w.isDir d = true
    · rw [if_neg (by simp [hd])]
      cases hl : w.listdir d with
      | none =>
        rw [mem_gatherExecs w text x ds acc]
        simp [hd, hl]
      | some files =>
        rw [mem_gatherExecs w text x ds (addFiles w text d files acc)]
        rw [mem_addFiles]
        simp only [List.any_cons, hd, hl, Bool.or_eq_true, Bool.and_eq_true,
          true_and]
        constructor
        · rintro ((h | ⟨hmem, hsw, hex⟩) | h)
          · exact Or.inl h
          · exact Or.inr (Or.inl ⟨⟨by simpa using hmem, hsw⟩, hex⟩)
          · exact Or.inr (Or.inr h)
        · rintro (h | ⟨⟨hmem, hsw⟩, hex⟩ | h)
          · exact Or.inl (Or.inl h)
          · exact Or.inl (Or.inr ⟨by simpa using hmem, hsw, hex⟩)
          · exact Or.inr h
    · rw [if_pos (by simp [Bool.not_eq_true] at hd ⊢; exact hd)]
      rw [mem_gatherExecs w text x ds acc]
      simp only [Bool.not_eq_true] at hd
      simp [hd]

/-- The accumulation loop preserves freedom from duplicates. -/
theorem addFiles_nodup (w : World) (text d : String) : ∀ (files acc : List String),
    acc.Nodup → (addFiles w text d files acc).Nodup
  | [], _, h => h
  | f :: fs, acc, h => by
    rw [addFiles]
    by_cases hc : (pyStartsWith f text && w.isExecFile (pyJoin d f) && !acc.contains f) = true
    · rw [if_pos hc]
      refine addFiles_nodup w text d fs (acc ++ [f]) ?_
      simp only [Bool.and_eq_true, Bool.not_eq_true'] at hc
      have : f ∉ acc := by simpa using hc.2
      simp [List.nodup_append, h, this]
    · rw [if_neg hc]
      exact addFiles_nodup w text d fs acc h

/-- The gathered executable list contains no duplicates. -/
theorem gatherExecs_nodup (w : World) (text : String) : ∀ (ds acc : List String),
    acc.Nodup → (gatherExecs w text ds acc).Nodup
  | [], _, h => h
  | d :: ds, acc, h => by
    rw [gatherExecs]
    by_cases hd : w.isDir d = true
    · rw [if_neg (by simp [hd])]
      cases hl : w.listdir d with
      | none => exact gatherExecs_nodup w text ds acc h
      | some files =>
        exact gatherExecs_nodup w text ds _ (addFiles_nodup w text d files acc h)
    · rw [if_pos (by simp [Bool.not_eq_true] at hd ⊢; exact hd)]
      exact gatherExecs_nodup w text ds acc h

/-- C5 (corrected).  The candidate list is sorted and its members are exactly
the builtin names starting with the prefix together with the executable names
found in listable PATH directories; but deduplication applies only among the
executables: a candidate can occur once as a builtin match AND once as an
executable match, so the list is free of duplicates only up to that pair. -/
theorem find_completions_spec (w : World) (text : String) :
    List.Sorted (fun a b : String => pyStrLe a b = true) (find_completions w text).1 ∧
    (∀ x, x ∈ (find_completions w text).1 ↔
      ((x ∈ builtinsList ∧ pyStartsWith x text = true) ∨
        execCandidateB w text x = true)) ∧
    (∀ x, (find_completions w text).1.count x ≤
      (if x ∈ builtinsList ∧ pyStartsWith x text = true then 1 else 0) +
      (if execCandidateB w text x = true then 1 else 0)) := by
  refine ⟨find_completions_sorted w text, ?_, ?_⟩
  · intro x
    rw [find_completions_fst, List.mem_insertionSort, List.mem_append,
      List.mem_filter, mem_gatherExecs]
    simp only [List.not_mem_nil, false_or]
    rw [execCandidateB]
  · intro x
    rw [find_completions_fst,
      (List.perm_insertionSort (fun a b : String => pyStrLe a b) _).count_eq,
      List.count_append]
    have h1 : (builtinsList.filter fun cmd => pyStartsWith cmd text).count x ≤
        if x ∈ builtinsList ∧ pyStartsWith x text = true then 1 else 0 := by
      by_cases hb : x ∈ builtinsList ∧ pyStartsWith x text = true
      · rw [if_pos hb]
        have hnodup : (builtinsList.filter fun cmd => pyStartsWith cmd text).Nodup :=
          (by decide : builtinsList.Nodup).filter _
        exact List.nodup_iff_count_le_one.mp hnodup x
      · rw [if_neg hb, Nat.le_zero, List.count_eq_zero]
        intro hmem
        exact hb (List.mem_filter.mp hmem)
    have h2 : (gatherExecs w text (pathSplit w) []).count x ≤
        if execCandidateB w text x = true then 1 else 0 := by
      by_cases he : execCandidateB w text x = true
      · rw [if_pos he]
        exact List.nodup_iff_count_le_one.mp
          (gatherExecs_nodup w text (pathSplit w) [] List.nodup_nil) x
      · rw [if_neg he, Nat.le_zero, List.count_eq_zero]
        intro hmem
        refine he ?_
        have h := (mem_gatherExecs w text x (pathSplit w) []).mp hmem
        rw [execCandidateB]
        simpa using h
    exact Nat.add_le_add h1 h2

/-- C5 counterexample: a PATH executable named `echo` makes the candidate
list for the prefix `ec` contain `echo` twice, contradicting "containing no
duplicate names" / "appears at most once". -/
theorem find_completions_duplicate_counterexample :
    (find_completions wEchoBin "ec").1 = ["echo", "echo"] ∧
    (find_completions wEchoBin "ec").1.count "echo" = 2 := by decide

/-- Witness for `find_completions_spec` at a concrete world and prefix. -/
theorem find_completions_spec_witness :
    ("echo" ∈ (find_completions wEchoBin "ec").1 ↔
      (("echo" ∈ builtinsList ∧ pyStartsWith "echo" "ec" = true) ∨
        execCandidateB wEchoBin "ec" "echo" = true)) ∧
    (find_completions wEchoBin "ec").1.count "echo" ≤
      (if "echo" ∈ builtinsList ∧ pyStartsWith "echo" "ec" = true then 1 else 0) +
      (if execCandidateB wEchoBin "ec" "echo" = true then 1 else 0) :=
  ⟨((find_completions_spec wEchoBin "ec").2.1 "echo"),
   ((find_completions_spec wEchoBin "ec").2.2 "echo")⟩

/-! ## Claim C4: the two-press disambiguation protocol -/

/-- Evaluation of one completion request (state 0) on a non-special prefix
with multiple candidates and no further common extension: with the awaiting
flag clear the call rings the bell and records the flag; with the flag set it
prints the two-space separated candidate list, redraws the prompt and clears
the flag.  Either way the input is unchanged (`ret = none`). -/
theorem complete_ambiguous_eval (w : World) (text : String) (g : CState)
    (hs : text ∉ specialTexts)
    (hms : 1 < (find_completions w text).1.length)
    (hlp : (find_completions w text).2.length ≤ text.length) :
    complete w text 0 g =
      if g.tab_pressed then
        ⟨none, ⟨text, false, (find_completions w text).1, (find_completions w text).2⟩,
          ["\n", String.intercalate "  " (find_completions w text).1 ++ "\n", "$ " ++ text]⟩
      else
        ⟨none, ⟨text, true, (find_completions w text).1, (find_completions w text).2⟩,
          ["\x07"]⟩ := by
  have e1 : (text == "ech") = false :=
    beq_eq_false_iff_ne.mpr fun h => hs (by rw [h]; decide)
  have e2 : (text == "exi") = false :=
    beq_eq_false_iff_ne.mpr fun h => hs (by rw [h]; decide)
  have e4 : (text == "xyz_quz_qux_bar") = false :=
    beq_eq_false_iff_ne.mpr fun h => hs (by rw [h]; decide)
  have eb : (builtinsList.contains text) = false := by
    by_contra hb
    rw [Bool.not_eq_false] at hb
    have hmem : text ∈ builtinsList := by
      simpa [List.contains] using List.elem_iff.mp (by simpa [List.contains] using hb)
    have hspec : text ∈ specialTexts := by
      simp only [builtinsList, List.mem_cons, List.not_mem_nil, or_false] at hmem
      rcases hmem with h | h | h | h | h <;> (rw [h]; decide)
    exact hs hspec
  have hne1 : ((find_completions w text).1.length == 1) = false :=
    beq_eq_false_iff_ne.mpr (by omega)
  have hdec : decide (text.length < (find_completions w text).2.length) = false :=
    decide_eq_false (Nat.not_lt.mpr hlp)
  cases hflag : g.tab_pressed with
  | false =>
    rw [complete]
    simp only [e1, e2, e4, eb, Bool.false_and, Bool.and_self, beq_self_eq_true,
      Bool.or_true, Bool.false_eq_true, if_false, if_true, bne_self_eq_false,
      Bool.true_or, hdec, Bool.and_false, hne1, completeMulti, hflag]
    simp only [if_pos hms, Bool.not_false, Bool.true_and, if_true, if_pos hlp]
  | true =>
    rw [complete]
    simp only [e1, e2, e4, eb, Bool.false_and, Bool.and_self, beq_self_eq_true,
      Bool.or_true, Bool.false_eq_true, if_false, if_true, bne_self_eq_false,
      Bool.true_or, hdec, Bool.and_false, hne1, completeMulti, hflag]
    simp only [if_pos hms, Bool.not_true, Bool.false_and, Bool.true_and, if_true,
      Bool.false_eq_true, if_false]

/-- C4 (corrected).  For prefixes outside the hardcoded special cases, the
two-press protocol holds: first request bell + flag without changing input,
second request on the same prefix prints the sorted candidate list two-space
separated and redraws the prompt and clears the flag, and a third request
cycles back to the bell.  (The hardcoded texts `ech`, `exi`, the builtin
names and `xyz_quz_qux_bar` bypass this protocol entirely.) -/
theorem stateB_two_press_protocol (w : World) (text : String) (g : CState)
    (hs : text ∉ specialTexts)
    (hms : 1 < (find_completions w text).1.length)
    (hlp : (find_completions w text).2.length ≤ text.length)
    (hg : g.tab_pressed = false) :
    complete w text 0 g =
      ⟨none, ⟨text, true, (find_completions w text).1, (find_completions w text).2⟩,
        ["\x07"]⟩ ∧
    complete w text 0 ⟨text, true, (find_completions w text).1, (find_completions w text).2⟩ =
      ⟨none, ⟨text, false, (find_completions w text).1, (find_completions w text).2⟩,
        ["\n", String.intercalate "  " (find_completions w text).1 ++ "\n", "$ " ++ text]⟩ ∧
    complete w text 0 ⟨text, false, (find_completions w text).1, (find_completions w text).2⟩ =
      ⟨none, ⟨text, true, (find_completions w text).1, (find_completions w text).2⟩,
        ["\x07"]⟩ ∧
    List.Sorted (fun a b : String => pyStrLe a b = true) (find_completions w text).1 := by
  refine ⟨?_, ?_, ?_, find_completions_sorted w text⟩
  · rw [complete_ambiguous_eval w text g hs hms hlp]
    simp [hg]
  · rw [complete_ambiguous_eval w text _ hs hms hlp]
    simp
  · rw [complete_ambiguous_eval w text _ hs hms hlp]
    simp

/-- C4 counterexample: with an executable `echx` on the PATH the prefix
`ech` has two candidates and no common extension beyond the prefix, yet the
first completion request returns the hardcoded `echo ` — changing the input
with neither bell nor awaiting flag. -/
theorem stateB_hardcoded_counterexample :
    1 < (find_completions wEchx "ech").1.length ∧
    (find_completions wEchx "ech").2.length ≤ ("ech" : String).length ∧
    complete wEchx "ech" 0 initCState = ⟨some "echo ", initCState, []⟩ := by decide

/-- Witness for `stateB_two_press_protocol` at a concrete world and prefix. -/
theorem stateB_two_press_protocol_witness :
    complete wFooBar "foo_" 0 initCState =
      ⟨none, ⟨"foo_", true, ["foo_a", "foo_b"], "foo_"⟩, ["\x07"]⟩ ∧
    complete wFooBar "foo_" 0 ⟨"foo_", true, ["foo_a", "foo_b"], "foo_"⟩ =
      ⟨none, ⟨"foo_", false, ["foo_a", "foo_b"], "foo_"⟩,
        ["\n", "foo_a  foo_b\n", "$ foo_"]⟩ := by
  have h := stateB_two_press_protocol wFooBar "foo_" initCState
    (by decide) (by decide) (by decide) rfl
  exact ⟨h.1.trans (by decide), by
    have h2 := h.2.1
    rw [show (find_completions wFooBar "foo_").1 = ["foo_a", "foo_b"] by decide,
        show (find_completions wFooBar "foo_").2 = "foo_" by decide] at h2
    exact h2.trans (by decide)⟩

/-- A run of whitespace of length one: the head is whitespace, the next
character is not. -/
theorem wsCount_cons_one {x : Char} (hx : isReSpace x = false) (l : List Char) :
    wsCount (' ' :: x :: l) = 1 := by
  simp [wsCount, List.takeWhile_cons, hx, show isReSpace ' ' = true from rfl]

/-- A non-whitespace head gives an empty whitespace run. -/
theorem wsCount_cons_zero {c : Char} (h : isReSpace c = false) (l : List Char) :
    wsCount (c :: l) = 0 := by
  simp [wsCount, List.takeWhile_cons, h]

/-- The stdout patterns need a whitespace character first. -/
theorem restMatchStdout_nonws {c : Char} (h : isReSpace c = false) (ap : Bool)
    (l : List Char) : restMatchStdout ap (c :: l) = none := by
  rw [restMatchStdout]
  simp [wsCount_cons_zero h]

/-- The stderr patterns need a whitespace character first. -/
theorem restMatchStderr_nonws {c : Char} (h : isReSpace c = false) (ap : Bool)
    (l : List Char) : restMatchStderr ap (c :: l) = none := by
  rw [restMatchStderr]
  simp [wsCount_cons_zero h]

/-- No pattern matches at the end of the line. -/
theorem restMatchStdout_nil (ap : Bool) : restMatchStdout ap [] = none := rfl

theorem restMatchStderr_nil (ap : Bool) : restMatchStderr ap [] = none := rfl

/-- One failing position advances the stdout search by one character. -/
theorem searchStdoutGo_step (ap : Bool) (pre : List Char) (x : Char) (xs : List Char)
    (h : restMatchStdout ap (x :: xs) = none) :
    searchStdoutGo ap pre (x :: xs) = searchStdoutGo ap (pre ++ [x]) xs := by
  rw [searchStdoutGo, h]

/-- One failing position advances the stderr search by one character. -/
theorem searchStderrGo_step (ap : Bool) (pre : List Char) (x : Char) (xs : List Char)
    (h : restMatchStderr ap (x :: xs) = none) :
    searchStderrGo ap pre (x :: xs) = searchStderrGo ap (pre ++ [x]) xs := by
  rw [searchStderrGo, h]

/-- The stdout search fails on an exhausted line. -/
theorem searchStdoutGo_nil (ap : Bool) (pre : List Char) :
    searchStdoutGo ap pre [] = none := by
  rw [searchStdoutGo, restMatchStdout_nil]

/-- The stderr search fails on an exhausted line. -/
theorem searchStderrGo_nil (ap : Bool) (pre : List Char) :
    searchStderrGo ap pre [] = none := by
  rw [searchStderrGo, restMatchStderr_nil]

/-- The stdout search skips over a whitespace-free block. -/
theorem searchStdoutGo_skip (ap : Bool) :
    ∀ (c : List Char) (pre rest : List Char), (∀ ch ∈ c, isReSpace ch = false) →
      searchStdoutGo ap pre (c ++ rest) = searchStdoutGo ap (pre ++ c) rest
  | [], pre, rest, _ => by simp
  | x :: xs, pre, rest, h => by
    have hx : isReSpace x = false := h x (List.mem_cons_self x xs)
    rw [List.cons_append, searchStdoutGo_step ap pre x (xs ++ rest)
      (restMatchStdout_nonws hx ap (xs ++ rest))]
    rw [searchStdoutGo_skip ap xs (pre ++ [x]) rest
      (fun ch hch => h ch (List.mem_cons_of_mem _ hch))]
    simp

/-- The stderr search skips over a whitespace-free block. -/
theorem searchStderrGo_skip (ap : Bool) :
    ∀ (c : List Char) (pre rest : List Char), (∀ ch ∈ c, isReSpace ch = false) →
      searchStderrGo ap pre (c ++ rest) = searchStderrGo ap (pre ++ c) rest
  | [], pre, rest, _ => by simp
  | x :: xs, pre, rest, h => by
    have hx : isReSpace x = false := h x (List.mem_cons_self x xs)
    rw [List.cons_append, searchStderrGo_step ap pre x (xs ++ rest)
      (restMatchStderr_nonws hx ap (xs ++ rest))]
    rw [searchStderrGo_skip ap xs (pre ++ [x]) rest
      (fun ch hch => h ch (List.mem_cons_of_mem _ hch))]
    simp

/-- A non-whitespace head right after the capture point makes the trailing
alternatives fail (the remainder is nonempty and starts with no whitespace). -/
theorem tailOk_cons_nonws {c : Char} (h : isReSpace c = false) (l : List Char) :
    tailOk (c :: l) = false := by
  simp [tailOk, wsCount_cons_zero h]

/-- The lazy `(.+?)` scan swallows exactly a whitespace-free block when the
trailing alternatives match right after it. -/
theorem g3Go_through :
    ∀ (o : List Char), o ≠ [] → (∀ ch ∈ o, isReSpace ch = false) →
      ∀ (taken rest : List Char), tailOk rest = true →
        g3Go taken (o ++ rest) = some (taken ++ o)
  | [], h, _, _, _, _ => absurd rfl h
  | [a], _, _, taken, rest, ht => by
    rw [show ([a] : List Char) ++ rest = a :: rest from rfl, g3Go, if_pos ht]
  | a :: b :: os, _, hws, taken, rest, ht => by
    have hb : isReSpace b = false := hws b (by simp)
    rw [show ((a :: b :: os : List Char) ++ rest) = a :: b :: (os ++ rest) from by simp,
      g3Go]
    rw [if_neg (by simp [tailOk_cons_nonws hb (os ++ rest)])]
    have hrec := g3Go_through (b :: os) (by simp)
      (fun ch hch => hws ch (List.mem_cons_of_mem _ hch)) (taken ++ [a]) rest ht
    rw [show ((b :: os : List Char) ++ rest) = b :: (os ++ rest) from by simp] at hrec
    rw [hrec]
    simp

/-- Neither stdout operator spelling matches when no `>` occurs among the
first three characters. -/
theorem opMatchStdout_none_of_no_gt (ap : Bool) :
    ∀ (l : List Char), (∀ ch ∈ l.take 3, ch ≠ '>') → opMatchStdout ap l = none
  | [], _ => by cases ap <;> rfl
  | [a], h => by
    have ha : ('>' == a) = false :=
      beq_eq_false_iff_ne.mpr fun hh => h a (by simp) hh.symm
    cases ap <;> simp [opMatchStdout, List.isPrefixOf, ha]
  | [a, b], h => by
    have ha : ('>' == a) = false :=
      beq_eq_false_iff_ne.mpr fun hh => h a (by simp) hh.symm
    have hb : ('>' == b) = false :=
      beq_eq_false_iff_ne.mpr fun hh => h b (by simp) hh.symm
    cases ap <;> simp [opMatchStdout, List.isPrefixOf, ha, hb]
  | a :: b :: c :: l, h => by
    have ha : ('>' == a) = false :=
      beq_eq_false_iff_ne.mpr fun hh => h a (by simp) hh.symm
    have hb : ('>' == b) = false :=
      beq_eq_false_iff_ne.mpr fun hh => h b (by simp) hh.symm
    cases ap <;> simp [opMatchStdout, List.isPrefixOf, ha, hb]

/-- Neither stderr operator spelling matches when no `>` occurs among the
first two characters. -/
theorem stderrOp_no_match (ap : Bool) :
    ∀ (l : List Char), (∀ ch ∈ l.take 2, ch ≠ '>') →
      ((if ap then ['2', '>', '>'] else ['2', '>']).isPrefixOf l) = false
  | [], _ => by cases ap <;> rfl
  | [a], h => by
    cases ap <;> simp [List.isPrefixOf]
  | a :: b :: l, h => by
    have hb : ('>' == b) = false :=
      beq_eq_false_iff_ne.mpr fun hh => h b (by simp) hh.symm
    cases ap <;> simp [List.isPrefixOf, hb]

/-- Membership in a take is preserved when the take is enlarged. -/
theorem mem_take_of_le {α : Type} {l : List α} {m n : Nat} (h : m ≤ n) {a : α}
    (ha : a ∈ l.take m) : a ∈ l.take n := by
  have h2 : (l.take n).take m = l.take m := by
    rw [List.take_take, Nat.min_eq_left h]
  rw [← h2] at ha
  exact List.take_subset _ _ ha

/-- No `>` among the first three characters of a `>`-free word followed by a
tail whose first two characters are `>`-free. -/
theorem no_gt_take3_append (o z : List Char) (ho : o ≠ [])
    (hoG : ∀ ch ∈ o, ch ≠ '>') (hz : ∀ ch ∈ z.take 2, ch ≠ '>') :
    ∀ ch ∈ (o ++ z).take 3, ch ≠ '>' := by
  intro ch hch
  rw [List.take_append_eq_append_take] at hch
  rcases List.mem_append.mp hch with h | h
  · exact hoG ch (List.mem_of_mem_take h)
  · have hle : 3 - o.length ≤ 2 := by
      cases o with
      | nil => exact absurd rfl ho
      | cons _ _ => simp [List.length_cons]
    exact hz ch (mem_take_of_le hle h)

/-- No `>` among the first two characters of a `>`-free word followed by a
tail whose first character is not `>`. -/
theorem no_gt_take2_append (o z : List Char) (ho : o ≠ [])
    (hoG : ∀ ch ∈ o, ch ≠ '>') (hz : ∀ ch ∈ z.take 1, ch ≠ '>') :
    ∀ ch ∈ (o ++ z).take 2, ch ≠ '>' := by
  intro ch hch
  rw [List.take_append_eq_append_take] at hch
  rcases List.mem_append.mp hch with h | h
  · exact hoG ch (List.mem_of_mem_take h)
  · have hle : 2 - o.length ≤ 1 := by
      cases o with
      | nil => exact absurd rfl ho
      | cons _ _ => simp [List.length_cons]
    exact hz ch (mem_take_of_le hle h)

/-- At the whitespace before a guarded word, the stdout patterns fail: the
operator would have to start inside the `>`-free word. -/
theorem restMatchStdout_ws_word (ap : Bool) (o z : List Char) (ho : o ≠ [])
    (hoW : ∀ ch ∈ o, isReSpace ch = false) (hoG : ∀ ch ∈ o, ch ≠ '>')
    (hz : ∀ ch ∈ z.take 2, ch ≠ '>') :
    restMatchStdout ap (' ' :: (o ++ z)) = none := by
  obtain ⟨oh, ot, rfl⟩ : ∃ h t, o = h :: t := by
    cases o with
    | nil => exact absurd rfl ho
    | cons h t => exact ⟨h, t, rfl⟩
  rw [show ((oh :: ot : List Char) ++ z) = oh :: (ot ++ z) from rfl]
  simp only [restMatchStdout, wsCount_cons_one (hoW oh (by simp)) (ot ++ z)]
  rw [show ((' ' :: oh :: (ot ++ z)).drop 1) = oh :: (ot ++ z) from rfl]
  rw [opMatchStdout_none_of_no_gt ap (oh :: (ot ++ z))
    (by exact no_gt_take3_append (oh :: ot) z ho hoG hz)]
  rfl

/-- At the whitespace before a guarded word, the stderr patterns fail. -/
theorem restMatchStderr_ws_word (ap : Bool) (o z : List Char) (ho : o ≠ [])
    (hoW : ∀ ch ∈ o, isReSpace ch = false) (hoG : ∀ ch ∈ o, ch ≠ '>')
    (hz : ∀ ch ∈ z.take 1, ch ≠ '>') :
    restMatchStderr ap (' ' :: (o ++ z)) = none := by
  obtain ⟨oh, ot, rfl⟩ : ∃ h t, o = h :: t := by
    cases o with
    | nil => exact absurd rfl ho
    | cons h t => exact ⟨h, t, rfl⟩
  rw [show ((oh :: ot : List Char) ++ z) = oh :: (ot ++ z) from rfl]
  simp only [restMatchStderr, wsCount_cons_one (hoW oh (by simp)) (ot ++ z)]
  rw [show ((' ' :: oh :: (ot ++ z)).drop 1) = oh :: (ot ++ z) from rfl]
  rw [stderrOp_no_match ap (oh :: (ot ++ z))
    (by exact no_gt_take2_append (oh :: ot) z ho hoG hz)]
  simp

/-- At the whitespace before the stdout operator, the append pattern fails
when the character after `>` is not another `>`. -/
theorem restMatchStdout_true_ws_gt {x : Char} (hx : ('>' == x) = false) (l : List Char) :
    restMatchStdout true (' ' :: '>' :: x :: l) = none := by
  simp only [restMatchStdout,
    wsCount_cons_one (show isReSpace '>' = false from rfl) (x :: l)]
  rw [show ((' ' :: '>' :: x :: l).drop 1) = '>' :: x :: l from rfl]
  rw [show opMatchStdout true ('>' :: x :: l) = none from by
    simp [opMatchStdout, List.isPrefixOf, hx]]
  rfl

/-- At the whitespace before the stdout operator, the stderr patterns fail
(`>` is not `2`). -/
theorem restMatchStderr_ws_gt (ap : Bool) (l : List Char) :
    restMatchStderr ap (' ' :: '>' :: l) = none := by
  simp only [restMatchStderr,
    wsCount_cons_one (show isReSpace '>' = false from rfl) l]
  rw [show ((' ' :: '>' :: l).drop 1) = '>' :: l from rfl]
  cases ap <;> simp [List.isPrefixOf]

/-- At the whitespace before the stderr operator, the stdout append pattern
fails (`2` spells neither `>` nor `1`). -/
theorem restMatchStdout_true_ws_two (l : List Char) :
    restMatchStdout true (' ' :: '2' :: l) = none := by
  simp only [restMatchStdout,
    wsCount_cons_one (show isReSpace '2' = false from rfl) l]
  rw [show ((' ' :: '2' :: l).drop 1) = '2' :: l from rfl]
  rw [show opMatchStdout true ('2' :: l) = none from by
    simp [opMatchStdout, List.isPrefixOf]]
  rfl

/-- At the whitespace before the stderr operator, the stderr append pattern
fails (the spelling would need `2>>`). -/
theorem restMatchStderr_true_ws_two (l : List Char) :
    restMatchStderr true (' ' :: '2' :: '>' :: ' ' :: l) = none := by
  simp only [restMatchStderr,
    wsCount_cons_one (show isReSpace '2' = false from rfl) ('>' :: ' ' :: l)]
  rw [show ((' ' :: '2' :: '>' :: ' ' :: l).drop 1) = '2' :: '>' :: ' ' :: l from rfl]
  simp [List.isPrefixOf]

/-- The trailing alternatives accept the whitespace + stderr-operator
region. -/
theorem tailOk_stderr_region (e : List Char) :
    tailOk (' ' :: '2' :: '>' :: ' ' :: e) = true := by
  simp [tailOk, wsCount_cons_one (show isReSpace '2' = false from rfl),
    List.isPrefixOf]

/-- Unfolding of the whitespace-backtracking scan at run length one. -/
theorem jScanStdout_one (u : List Char) :
    jScanStdout u 1 =
      match g3Go [] (u.drop 1) with
      | some g => some g
      | none => jScanStdout u 0 := rfl

/-- The stdout truncate pattern matches at the operator position of
`... > o 2> e`, capturing exactly the target word `o`. -/
theorem restMatchStdout_false_hit (o e : List Char) (ho : o ≠ [])
    (hoW : ∀ ch ∈ o, isReSpace ch = false) :
    restMatchStdout false
      (' ' :: '>' :: ' ' :: (o ++ (' ' :: '2' :: '>' :: ' ' :: e))) = some o := by
  obtain ⟨oh, ot, rfl⟩ : ∃ h t, o = h :: t := by
    cases o with
    | nil => exact absurd rfl ho
    | cons h t => exact ⟨h, t, rfl⟩
  rw [show ((oh :: ot : List Char) ++ (' ' :: '2' :: '>' :: ' ' :: e)) =
    oh :: (ot ++ (' ' :: '2' :: '>' :: ' ' :: e)) from rfl]
  simp only [restMatchStdout,
    wsCount_cons_one (show isReSpace '>' = false from rfl)]
  rw [show ((' ' :: '>' :: ' ' :: oh :: (ot ++ (' ' :: '2' :: '>' :: ' ' :: e))).drop 1) =
    '>' :: ' ' :: oh :: (ot ++ (' ' :: '2' :: '>' :: ' ' :: e)) from rfl]
  rw [show opMatchStdout false
      ('>' :: ' ' :: oh :: (ot ++ (' ' :: '2' :: '>' :: ' ' :: e))) =
      some (' ' :: oh :: (ot ++ (' ' :: '2' :: '>' :: ' ' :: e))) from by
    simp [opMatchStdout, List.isPrefixOf]]
  show jScanStdout (' ' :: oh :: (ot ++ (' ' :: '2' :: '>' :: ' ' :: e)))
      (wsCount (' ' :: oh :: (ot ++ (' ' :: '2' :: '>' :: ' ' :: e)))) = some (oh :: ot)
  rw [wsCount_cons_one (hoW oh (by simp)), jScanStdout_one]
  rw [show ((' ' :: oh :: (ot ++ (' ' :: '2' :: '>' :: ' ' :: e))).drop 1) =
    oh :: (ot ++ (' ' :: '2' :: '>' :: ' ' :: e)) from rfl]
  have hg := g3Go_through (oh :: ot) ho hoW [] (' ' :: '2' :: '>' :: ' ' :: e)
    (tailOk_stderr_region e)
  rw [show ((oh :: ot : List Char) ++ (' ' :: '2' :: '>' :: ' ' :: e)) =
    oh :: (ot ++ (' ' :: '2' :: '>' :: ' ' :: e)) from rfl] at hg
  rw [hg]
  simp

/-- The stderr truncate pattern matches at the operator position of
`... 2> e`, capturing exactly the target word `e` (which extends greedily to
the end of the line). -/
theorem restMatchStderr_false_hit (e : List Char) (he : e ≠ [])
    (heW : ∀ ch ∈ e, isReSpace ch = false) :
    restMatchStderr false (' ' :: '2' :: '>' :: ' ' :: e) = some e := by
  obtain ⟨eh, et, rfl⟩ : ∃ h t, e = h :: t := by
    cases e with
    | nil => exact absurd rfl he
    | cons h t => exact ⟨h, t, rfl⟩
  simp only [restMatchStderr,
    wsCount_cons_one (show isReSpace '2' = false from rfl)]
  rw [if_neg (show ¬(((1 : Nat) == 0) = true) from by decide)]
  rw [if_neg (show ¬(false = true) from by decide)]
  rw [show ((' ' :: '2' :: '>' :: ' ' :: eh :: et).drop 1) =
    '2' :: '>' :: ' ' :: eh :: et from rfl]
  rw [if_pos (show ((['2', '>'] : List Char).isPrefixOf
    ('2' :: '>' :: ' ' :: eh :: et)) = true from by simp [List.isPrefixOf])]
  rw [show (['2', '>'] : List Char).length = 2 from rfl]
  rw [show (('2' :: '>' :: ' ' :: eh :: et).drop 2) = ' ' :: eh :: et from rfl]
  rw [wsCount_cons_one (heW eh (by simp))]
  rw [if_neg (show ¬(((1 : Nat) == 0) = true) from by decide)]
  rw [if_pos (show (1 : Nat) < (' ' :: eh :: et).length from by
    simp [List.length_cons])]
  rw [if_neg (show ¬(((1 : Nat) == 0) = true) from by decide)]
  rw [show ((' ' :: eh :: et).drop 1) = eh :: et from rfl]

/-- At the whitespace before the final word of the line, the stdout patterns
fail. -/
theorem restMatchStdout_ws_end (ap : Bool) (e : List Char) (he : e ≠ [])
    (heW : ∀ ch ∈ e, isReSpace ch = false) (heG : ∀ ch ∈ e, ch ≠ '>') :
    restMatchStdout ap (' ' :: e) = none := by
  have h := restMatchStdout_ws_word ap e [] he heW heG (by simp)
  simpa using h

/-- At the whitespace before the final word of the line, the stderr patterns
fail. -/
theorem restMatchStderr_ws_end (ap : Bool) (e : List Char) (he : e ≠ [])
    (heW : ∀ ch ∈ e, isReSpace ch = false) (heG : ∀ ch ∈ e, ch ≠ '>') :
    restMatchStderr ap (' ' :: e) = none := by
  have h := restMatchStderr_ws_word ap e [] he heW heG (by simp)
  simpa using h

/-- The stdout truncate search on a well-formed `c > o 2> e` line stops at
the first operator with group 1 = `c` and group 3 = `o`. -/
theorem searchStdout_false_line (c o e : List Char)
    (hcW : ∀ ch ∈ c, isReSpace ch = false)
    (ho : o ≠ []) (hoW : ∀ ch ∈ o, isReSpace ch = false) :
    searchStdout false
      (c ++ (' ' :: '>' :: ' ' :: (o ++ (' ' :: '2' :: '>' :: ' ' :: e)))) =
      some (c, o) := by
  rw [searchStdout, searchStdoutGo_skip false c [] _ hcW]
  rw [searchStdoutGo, restMatchStdout_false_hit o e ho hoW]
  simp

/-- The stdout append search fails on every position of a well-formed
`c > o 2> e` line. -/
theorem searchStdout_true_line (c o e : List Char)
    (hcW : ∀ ch ∈ c, isReSpace ch = false)
    (ho : o ≠ []) (hoW : ∀ ch ∈ o, isReSpace ch = false)
    (hoG : ∀ ch ∈ o, ch ≠ '>')
    (he : e ≠ []) (heW : ∀ ch ∈ e, isReSpace ch = false)
    (heG : ∀ ch ∈ e, ch ≠ '>') :
    searchStdout true
      (c ++ (' ' :: '>' :: ' ' :: (o ++ (' ' :: '2' :: '>' :: ' ' :: e)))) = none := by
  have hz2 : ∀ ch ∈ ((' ' :: '2' :: '>' :: ' ' :: e).take 2), ch ≠ '>' := by
    intro ch hch
    simp only [List.take_succ_cons, List.take_zero] at hch
    rcases List.mem_cons.mp hch with rfl | hch
    · decide
    · rcases List.mem_cons.mp hch with rfl | hch
      · decide
      · exact absurd hch (List.not_mem_nil ch)
  rw [searchStdout, searchStdoutGo_skip true c [] _ hcW]
  rw [searchStdoutGo_step _ _ _ _
    (restMatchStdout_true_ws_gt (show ('>' == ' ') = false from rfl) _)]
  rw [searchStdoutGo_step _ _ _ _
    (restMatchStdout_nonws (show isReSpace '>' = false from rfl) true _)]
  rw [searchStdoutGo_step _ _ _ _
    (restMatchStdout_ws_word true o (' ' :: '2' :: '>' :: ' ' :: e) ho hoW hoG hz2)]
  rw [searchStdoutGo_skip true o _ _ hoW]
  rw [searchStdoutGo_step _ _ _ _ (restMatchStdout_true_ws_two ('>' :: ' ' :: e))]
  rw [searchStdoutGo_step _ _ _ _
    (restMatchStdout_nonws (show isReSpace '2' = false from rfl) true _)]
  rw [searchStdoutGo_step _ _ _ _
    (restMatchStdout_nonws (show isReSpace '>' = false from rfl) true _)]
  rw [searchStdoutGo_step _ _ _ _ (restMatchStdout_ws_end true e he heW heG)]
  rw [← List.append_nil e, searchStdoutGo_skip true e _ [] heW, searchStdoutGo_nil]

/-- The stderr append search fails on every position of a well-formed
`c > o 2> e` line. -/
theorem searchStderr_true_line (c o e : List Char)
    (hcW : ∀ ch ∈ c, isReSpace ch = false)
    (ho : o ≠ []) (hoW : ∀ ch ∈ o, isReSpace ch = false)
    (hoG : ∀ ch ∈ o, ch ≠ '>')
    (he : e ≠ []) (heW : ∀ ch ∈ e, isReSpace ch = false)
    (heG : ∀ ch ∈ e, ch ≠ '>') :
    searchStderr true
      (c ++ (' ' :: '>' :: ' ' :: (o ++ (' ' :: '2' :: '>' :: ' ' :: e)))) = none := by
  have hz1 : ∀ ch ∈ ((' ' :: '2' :: '>' :: ' ' :: e).take 1), ch ≠ '>' := by
    intro ch hch
    simp only [List.take_succ_cons, List.take_zero] at hch
    rcases List.mem_cons.mp hch with rfl | hch
    · decide
    · exact absurd hch (List.not_mem_nil ch)
  rw [searchStderr, searchStderrGo_skip true c [] _ hcW]
  rw [searchStderrGo_step _ _ _ _ (restMatchStderr_ws_gt true _)]
  rw [searchStderrGo_step _ _ _ _
    (restMatchStderr_nonws (show isReSpace '>' = false from rfl) true _)]
  rw [searchStderrGo_step _ _ _ _
    (restMatchStderr_ws_word true o (' ' :: '2' :: '>' :: ' ' :: e) ho hoW hoG hz1)]
  rw [searchStderrGo_skip true o _ _ hoW]
  rw [searchStderrGo_step _ _ _ _ (restMatchStderr_true_ws_two e)]
  rw [searchStderrGo_step _ _ _ _
    (restMatchStderr_nonws (show isReSpace '2' = false from rfl) true _)]
  rw [searchStderrGo_step _ _ _ _
    (restMatchStderr_nonws (show isReSpace '>' = false from rfl) true _)]
  rw [searchStderrGo_step _ _ _ _ (restMatchStderr_ws_end true e he heW heG)]
  rw [← List.append_nil e, searchStderrGo_skip true e _ [] heW, searchStderrGo_nil]

/-- The stderr truncate search on a well-formed `c > o 2> e` line stops at
the stderr operator with group 1 = `c > o` and group 3 = `e`. -/
theorem searchStderr_false_line (c o e : List Char)
    (hcW : ∀ ch ∈ c, isReSpace ch = false)
    (ho : o ≠ []) (hoW : ∀ ch ∈ o, isReSpace ch = false)
    (hoG : ∀ ch ∈ o, ch ≠ '>')
    (he : e ≠ []) (heW : ∀ ch ∈ e, isReSpace ch = false) :
    searchStderr false
      (c ++ (' ' :: '>' :: ' ' :: (o ++ (' ' :: '2' :: '>' :: ' ' :: e)))) =
      some (c ++ (' ' :: '>' :: ' ' :: o), e) := by
  have hz1 : ∀ ch ∈ ((' ' :: '2' :: '>' :: ' ' :: e).take 1), ch ≠ '>' := by
    intro ch hch
    simp only [List.take_succ_cons, List.take_zero] at hch
    rcases List.mem_cons.mp hch with rfl | hch
    · decide
    · exact absurd hch (List.not_mem_nil ch)
  rw [searchStderr, searchStderrGo_skip false c [] _ hcW]
  rw [searchStderrGo_step _ _ _ _ (restMatchStderr_ws_gt false _)]
  rw [searchStderrGo_step _ _ _ _
    (restMatchStderr_nonws (show isReSpace '>' = false from rfl) false _)]
  rw [searchStderrGo_step _ _ _ _
    (restMatchStderr_ws_word false o (' ' :: '2' :: '>' :: ' ' :: e) ho hoW hoG hz1)]
  rw [searchStderrGo_skip false o _ _ hoW]
  rw [searchStderrGo, restMatchStderr_false_hit e he heW]
  simp

/-- C1 (corrected).  On a well-formed line whose stdout operator precedes
the stderr operator (`c > o 2> e` with whitespace- and `>`-free words), the
extractor returns exactly the claimed decomposition.  But on the claim's own
order-reversed example `cmd 2> e.txt > o.txt` the command text retains the
stderr operator and its text, and the stderr target greedily captures the
rest of the line. -/
theorem handle_redirects_spec :
    (∀ c o e : String, c.data ≠ [] → o.data ≠ [] → e.data ≠ [] →
      (∀ ch ∈ c.data, isReSpace ch = false ∧ ch ≠ '>') →
      (∀ ch ∈ o.data, isReSpace ch = false ∧ ch ≠ '>') →
      (∀ ch ∈ e.data, isReSpace ch = false ∧ ch ≠ '>') →
      handle_redirects (c ++ " > " ++ o ++ " 2> " ++ e) =
        (c, some o, some e, false, false)) ∧
    handle_redirects "cmd 2> e.txt > o.txt" =
      ("cmd 2> e.txt", some "o.txt", some "e.txt > o.txt", false, false) := by
  constructor
  · intro c o e hc ho he hcP hoP heP
    have hcW : ∀ ch ∈ c.data, isReSpace ch = false := fun ch h => (hcP ch h).1
    have hoW : ∀ ch ∈ o.data, isReSpace ch = false := fun ch h => (hoP ch h).1
    have hoG : ∀ ch ∈ o.data, ch ≠ '>' := fun ch h => (hoP ch h).2
    have heW : ∀ ch ∈ e.data, isReSpace ch = false := fun ch h => (heP ch h).1
    have heG : ∀ ch ∈ e.data, ch ≠ '>' := fun ch h => (heP ch h).2
    have hdata : (c ++ " > " ++ o ++ " 2> " ++ e).data =
        c.data ++ (' ' :: '>' :: ' ' ::
          (o.data ++ (' ' :: '2' :: '>' :: ' ' :: e.data))) := by
      rw [String.data_append, String.data_append, String.data_append,
        String.data_append]
      rw [show (" > " : String).data = [' ', '>', ' '] from rfl,
        show (" 2> " : String).data = [' ', '2', '>', ' '] from rfl]
      simp [List.append_assoc]
    rw [handle_redirects, hdata]
    rw [searchStdout_true_line c.data o.data e.data hcW ho hoW hoG he heW heG]
    rw [searchStdout_false_line c.data o.data e.data hcW ho hoW]
    rw [searchStderr_true_line c.data o.data e.data hcW ho hoW hoG he heW heG]
    rw [searchStderr_false_line c.data o.data e.data hcW ho hoW hoG he heW]
    rfl
  · decide

/-- Witness for `handle_redirects_spec` on `cmd > o.txt 2> e.txt`. -/
theorem handle_redirects_spec_witness :
    handle_redirects ("cmd" ++ " > " ++ "o.txt" ++ " 2> " ++ "e.txt") =
      ("cmd", some "o.txt", some "e.txt", false, false) :=
  handle_redirects_spec.1 "cmd" "o.txt" "e.txt" (by decide) (by decide) (by decide)
    (by decide) (by decide) (by decide)
